import Mathlib

/-!
Verification of the race-data dashboard repository (`stint_pace_chart.py`,
`race_stats.py`, `race_tyre_analysis.py`, `results_table.py`,
`pace-chart.py` / `driver_pace_chart.py`, `streamlit_app.py`).

The Python code is shallowly embedded: CSV cell values become `PyVal`
(a string, a float NaN, or Python `None`), the lap-time parsers become
total Lean functions into an error monad (`Except PyErr`) mirroring the
`try`/`except` structure of the source, and the dataframe pipelines
(stint segmentation, leader-by-lap with FCY carry-forward, results-table
ordering, top-percent filtering) become list-processing functions.
`pandas.sort_values` (a stable lexicographic sort with NaN/NaT placed
last) is modelled by `List.insertionSort`, which is stable, over a
lexicographic key in which a missing value is `⊤`.

Python's `int()` / `float()` on strings are modelled on the decimal
fragment actually exercised by the timing data: optional sign and
surrounding whitespace, digit runs, one decimal point, and the literal
"nan" (exponents, "inf" and digit underscores are outside the model).
Arithmetic on parsed times is exact rational arithmetic, which is the
reading the specification itself adopts for time values.
-/

/-- A value in a dataframe cell as seen by the Python parsers:
a string, the float NaN (what `pandas` stores for a missing value),
or Python `None`. -/
inductive PyVal where
  | str (s : String)
  | nanV
  | noneV
deriving DecidableEq, Repr

/-- Result of a lap-time parsing function: a (finite) float modelled as a
rational, the float NaN, or Python `None`. -/
inductive PyOut where
  | val (q : ℚ)
  | nan
  | none
deriving DecidableEq, Repr

/-- The Python exceptions that `int()` / `float()` can raise here. -/
inductive PyErr where
  | valueError
  | typeError
deriving DecidableEq, Repr

instance {ε α : Type} [DecidableEq ε] [DecidableEq α] : DecidableEq (Except ε α) :=
  fun x y =>
    match x, y with
    | .ok a, .ok b =>
      if h : a = b then isTrue (by rw [h]) else isFalse (fun hh => h (Except.ok.inj hh))
    | .error a, .error b =>
      if h : a = b then isTrue (by rw [h]) else isFalse (fun hh => h (Except.error.inj hh))
    | .ok _, .error _ => isFalse (fun hh => Except.noConfusion hh)
    | .error _, .ok _ => isFalse (fun hh => Except.noConfusion hh)

/-- `str(v)` for the values a timing column can hold. -/
def pyStr : PyVal → String
  | .str s => s
  | .nanV => "nan"
  | .noneV => "None"

/-- Whitespace for Python's `str.strip()` (the forms occurring in CSV data). -/
def pySpace (c : Char) : Bool :=
  c = ' ' ∨ c = '\t' ∨ c = '\n' ∨ c = '\r'

/-- Python `str.strip()`. -/
def pyStrip (l : List Char) : List Char :=
  ((l.dropWhile pySpace).reverse.dropWhile pySpace).reverse

/-- Python `str.lower()`. -/
def pyLower (l : List Char) : List Char := l.map Char.toLower

/-- Python `str.upper()`. -/
def pyUpper (l : List Char) : List Char := l.map Char.toUpper

/-- Python `s.split(sep)` for a one-character separator: splits at every
occurrence, keeping empty pieces (`"a::b".split(":") == ["a", "", "b"]`). -/
def pySplit : List Char → Char → List (List Char)
  | [], _ => [[]]
  | c :: rest, sep =>
    match pySplit rest sep with
    | [] => [[]]
    | g :: gs => if c = sep then [] :: g :: gs else (c :: g) :: gs

/-- Numeric value of a run of decimal digit characters (leading zeros allowed). -/
def digitsToNat (l : List Char) : ℕ :=
  l.foldl (fun a c => a * 10 + (c.toNat - 48)) 0

/-- A nonempty all-digit run, or `none`. -/
def parseUDigits (l : List Char) : Option ℕ :=
  if l ≠ [] ∧ l.all Char.isDigit then some (digitsToNat l) else none

/-- Python `int(s)` on a string: optional surrounding whitespace, optional
sign, a digit run; raises `ValueError` otherwise. -/
def pyIntE (l : List Char) : Except PyErr ℤ :=
  match pyStrip l with
  | '-' :: rest =>
    match parseUDigits rest with
    | some n => .ok (-(n : ℤ))
    | Option.none => .error .valueError
  | '+' :: rest =>
    match parseUDigits rest with
    | some n => .ok (n : ℤ)
    | Option.none => .error .valueError
  | t =>
    match parseUDigits t with
    | some n => .ok (n : ℤ)
    | Option.none => .error .valueError

/-- Unsigned decimal fraction `digits[.digits]` as (numerator, denominator),
requiring at least one digit overall, as Python's float grammar does. -/
def parseUFracParts (l : List Char) : Option (ℕ × ℕ) :=
  match pySplit l '.' with
  | [a] => (parseUDigits a).map (fun n => (n, 1))
  | [a, b] =>
    if a.all Char.isDigit ∧ b.all Char.isDigit ∧ (a ≠ [] ∨ b ≠ []) then
      some (digitsToNat a * 10 ^ b.length + digitsToNat b, 10 ^ b.length)
    else none
  | _ => none

/-- Python `float(s)` on a string: optional surrounding whitespace, optional
sign, a decimal fraction, or the literal `nan`; raises `ValueError` otherwise. -/
def pyFloatSE (l : List Char) : Except PyErr PyOut :=
  let t := pyStrip l
  if pyLower t = "nan".toList then .ok .nan
  else
    match t with
    | '-' :: rest =>
      match parseUFracParts rest with
      | some (n, d) => .ok (.val (mkRat (-(n : ℤ)) d))
      | Option.none => .error .valueError
    | '+' :: rest =>
      match parseUFracParts rest with
      | some (n, d) => .ok (.val (mkRat n d))
      | Option.none => .error .valueError
    | _ =>
      match parseUFracParts t with
      | some (n, d) => .ok (.val (mkRat n d))
      | Option.none => .error .valueError

/-- Python `float(v)` on an arbitrary cell value: a float passes through
(`float(nan)` is nan), a string is parsed, `None` raises `TypeError`. -/
def pyFloatV : PyVal → Except PyErr PyOut
  | .str s => pyFloatSE s.toList
  | .nanV => .ok .nan
  | .noneV => .error .typeError

/-- `int(h)*k + f` where `f` is a parsed float: NaN propagates, as in
Python float arithmetic. -/
def addWhole (w : ℤ) (f : PyOut) : PyOut :=
  match f with
  | .val q => .val ((w : ℚ) + q)
  | .nan => .nan
  | .none => .none

/-- `pd.isna(v)` on a cell value. -/
def pdIsna (v : PyVal) : Bool :=
  v = PyVal.nanV ∨ v = PyVal.noneV

/-- The shared `try`-body of `parse_pit_time` and `lap_time_to_seconds`
(`race_tyre_analysis.py`): split the stripped string on `':'`;
two fields are `mm:ss`, three are `hh:mm:ss`, anything else is handed to
`float()` whole.  Errors are the exceptions the body can raise. -/
def colonTimeTry (s : List Char) : Except PyErr PyOut :=
  match pySplit s ':' with
  | [m, rest] => do
    let mi ← pyIntE m
    let f ← pyFloatSE rest
    pure (addWhole (mi * 60) f)
  | [h, m, rest] => do
    let hi ← pyIntE h
    let mi ← pyIntE m
    let f ← pyFloatSE rest
    pure (addWhole (hi * 3600 + mi * 60) f)
  | _ => pyFloatSE s

/-- The literal strings `parse_pit_time` / `lap_time_to_seconds` treat as
missing: `{"nan", "na", "none"}`. -/
def missingStrings : List (List Char) :=
  ["nan".toList, "na".toList, "none".toList]

/-- `parse_pit_time` (`race_tyre_analysis.py`, lines 9–27): missing or
blank-ish values become `0.0`, then the colon-time body runs with
`except ValueError` returning `0.0`.  Any other exception would escape. -/
def parse_pit_time (v : PyVal) : Except PyErr PyOut :=
  if pdIsna v then .ok (.val 0)
  else
    let s := pyStrip (pyStr v).toList
    if s = [] ∨ pyLower s ∈ missingStrings then .ok (.val 0)
    else
      match colonTimeTry s with
      | .ok r => .ok r
      | .error .valueError => .ok (.val 0)
      | .error e => .error e

/-- `lap_time_to_seconds` (`race_tyre_analysis.py`, lines 62–84): like
`parse_pit_time` but the fallback value is NaN. -/
def lap_time_to_seconds (v : PyVal) : Except PyErr PyOut :=
  if pdIsna v then .ok .nan
  else
    let s := pyStrip (pyStr v).toList
    if s = [] ∨ pyLower s ∈ missingStrings then .ok .nan
    else
      match colonTimeTry s with
      | .ok r => .ok r
      | .error .valueError => .ok .nan
      | .error e => .error e

/-- The `try`-body of `time_to_seconds` (`stint_pace_chart.py`, lines 39–51):
split `str(time_str)` (unstripped) on `':'`; three fields are `h:m:s`, two
are `m:s`, otherwise `float(time_str)` is applied to the original value. -/
def time_to_seconds_try (v : PyVal) : Except PyErr PyOut :=
  match pySplit (pyStr v).toList ':' with
  | [h, m, s] => do
    let hi ← pyIntE h
    let mi ← pyIntE m
    let f ← pyFloatSE s
    pure (addWhole (hi * 3600 + mi * 60) f)
  | [m, s] => do
    let mi ← pyIntE m
    let f ← pyFloatSE s
    pure (addWhole (mi * 60) f)
  | _ => pyFloatV v

/-- `time_to_seconds` (`stint_pace_chart.py`): the body runs under
`except Exception: return None`, so every exception becomes `None`. -/
def time_to_seconds (v : PyVal) : PyOut :=
  match time_to_seconds_try v with
  | .ok r => r
  | .error _ => .none

/-- `lap_to_seconds` (`results_table.py`, lines 30–41): `None` for missing
values, then only a two-field `m:ss` string parses; the `try` swallows
every exception and the function otherwise returns `None`. -/
def lap_to_seconds (v : PyVal) : PyOut :=
  if pdIsna v then .none
  else
    match pySplit (pyStrip (pyStr v).toList) ':' with
    | [m, s] =>
      match (do
          let mi ← pyIntE m
          let f ← pyFloatSE s
          pure (addWhole (mi * 60) f) : Except PyErr PyOut) with
      | .ok r => r
      | .error _ => .none
    | _ => .none

/-- The decimal digit character for `d ≤ 9`. -/
def digitChar (d : ℕ) : Char := Char.ofNat (48 + d)

/-- Decimal digits of `n`, most significant first, no leading zeros
(the rendering of `n` in a Python f-string). -/
def natDigits (n : ℕ) : List Char :=
  if h : n < 10 then [digitChar n]
  else natDigits (n / 10) ++ [digitChar (n % 10)]
termination_by n
decreasing_by exact Nat.div_lt_self (by omega) (by omega)

/-- Left-pad with `'0'` to width `k`, as the `0`-flag of a format spec does. -/
def padZeros (k : ℕ) (l : List Char) : List Char :=
  List.replicate (k - l.length) '0' ++ l

/-- `seconds_to_lap_format` (`results_table.py`, lines 43–49) on an exact
number of seconds given as a whole count of milliseconds `ms` (the claim's
"whole multiple of 1/1000, exact arithmetic"): renders
`f"{m}:{s:06.3f}"` with `m = seconds // 60` and `s = seconds % 60`;
`%06.3f` on a value below 60 that is a multiple of 1/1000 prints the
two-digit zero-padded integer part, a point, and three fraction digits. -/
def seconds_to_lap_format (ms : ℕ) : String :=
  let m := ms / 60000
  let r := ms % 60000
  String.mk (natDigits m ++ ':' :: padZeros 2 (natDigits (r / 1000)) ++
    '.' :: padZeros 3 (natDigits (r % 1000)))

/-- A raw row of the stint-pace dataframe: the columns
`show_stint_pace_chart` reads after class/car filtering.  `LAP_NUMBER`
is already numeric (`pd.to_numeric`, non-numeric rows dropped). -/
structure RawLap where
  number : ℕ
  lapNumber : ℕ
  lapTime : PyVal
  crossing : PyVal
deriving DecidableEq, Repr

/-- A row surviving `dropna(subset=["LAP_NUMBER", "LAP_TIME_SEC"])`:
its `LAP_TIME_SEC = time_to_seconds(LAP_TIME)` parsed to a value
(both `None` and NaN are dropped by `dropna`). -/
structure Lap where
  number : ℕ
  lapNumber : ℕ
  lapTimeSec : ℚ
  crossing : PyVal
deriving DecidableEq, Repr

/-- Parse one raw row; `none` when `dropna` would remove it. -/
def toLapRow (r : RawLap) : Option Lap :=
  match time_to_seconds r.lapTime with
  | .val q => some ⟨r.number, r.lapNumber, q, r.crossing⟩
  | _ => Option.none

/-- `str(row.get("CROSSING_FINISH_LINE_IN_PIT", "")).strip().upper() == "B"`. -/
def pitFlag (r : Lap) : Bool :=
  pyUpper (pyStrip (pyStr r.crossing).toList) = "B".toList

/-- Sort key of `plot_df.sort_values(["NUMBER", "LAP_NUMBER"])`. -/
def lapSortRel (a b : Lap) : Prop :=
  toLex (a.number, a.lapNumber) ≤ toLex (b.number, b.lapNumber)

instance : DecidableRel lapSortRel :=
  fun a b => inferInstanceAs (Decidable (_ ≤ _))

instance : IsTotal Lap lapSortRel :=
  ⟨fun a b => le_total (toLex (a.number, a.lapNumber)) (toLex (b.number, b.lapNumber))⟩

instance : IsTrans Lap lapSortRel :=
  ⟨fun _ _ _ h1 h2 => le_trans h1 h2⟩

/-- `plot_df` after `LAP_TIME_SEC` conversion, sorting by
`["NUMBER", "LAP_NUMBER"]` and `dropna`.  (The stable sort key never looks
at the parsed lap time, so dropping unparseable rows before sorting gives
the same list the source obtains by dropping after.) -/
def plotRows (rows : List RawLap) : List Lap :=
  (rows.filterMap toLapRow).insertionSort lapSortRel

/-- Group keys of `plot_df.groupby("NUMBER", sort=False)`: car numbers in
order of first appearance. -/
def carsOf (rows : List Lap) : List ℕ :=
  (rows.map (·.number)).dedup

/-- Sort key of `car_group.sort_values("LAP_NUMBER")`. -/
def carLapRel (a b : Lap) : Prop := a.lapNumber ≤ b.lapNumber

instance : DecidableRel carLapRel :=
  fun a b => inferInstanceAs (Decidable (_ ≤ _))

instance : IsTotal Lap carLapRel := ⟨fun a b => le_total a.lapNumber b.lapNumber⟩

instance : IsTrans Lap carLapRel := ⟨fun _ _ _ h1 h2 => le_trans h1 h2⟩

/-- One car's laps: `car_group.sort_values("LAP_NUMBER").reset_index(drop=True)`. -/
def carGroup (rows : List Lap) (car : ℕ) : List Lap :=
  (rows.filter (fun r => decide (r.number = car))).insertionSort carLapRel

/-- The stint-building loop of `show_stint_pace_chart` (lines 110–183) over
`(index, row)` pairs as produced by `iterrows()`: `skipNext` is
`skip_next_lap`, `cur` is `current_stint_idxs`; a pit-flagged lap is
appended and flushes the stint, the row after a flush is discarded and
bumps the stint number; leftover rows become a final stint. -/
def buildStintsAux (stintNo : ℕ) (skipNext : Bool) (cur : List (ℕ × Lap)) :
    List (ℕ × Lap) → List (ℕ × List (ℕ × Lap))
  | [] => if cur = [] then [] else [(stintNo, cur)]
  | p :: rest =>
    if skipNext then buildStintsAux (stintNo + 1) false [] rest
    else
      if pitFlag p.2 then (stintNo, cur ++ [p]) :: buildStintsAux stintNo true [] rest
      else buildStintsAux stintNo false (cur ++ [p]) rest

/-- Stints of one car's lap list, with each lap tagged by its row index. -/
def buildStints (l : List Lap) : List (ℕ × List (ℕ × Lap)) :=
  buildStintsAux 1 false [] l.enum

/-- `max(1, int(math.ceil(stint_length * top_pct / 100.0)))`: the float
expression computes the exact ceiling `⌈n·p/100⌉` for the magnitudes at
hand, i.e. `(n * p + 99) / 100` in integer arithmetic. -/
def nKeep (n p : ℕ) : ℕ := max 1 ((n * p + 99) / 100)

/-- Python `sorted(lap_secs)`. -/
def sortedSecs (ls : List ℚ) : List ℚ :=
  ls.insertionSort (· ≤ ·)

/-- `avg_top`: mean of the first `n_keep` entries of the ascending sort. -/
def avgTopOf (p : ℕ) (ls : List ℚ) : ℚ :=
  ((sortedSecs ls).take (nKeep ls.length p)).sum / (nKeep ls.length p : ℚ)

/-- One row appended to `rows` by the stint loop. -/
structure StintSummary where
  number : ℕ
  stintNumber : ℕ
  stintLaps : ℕ
  avgTopLapSec : ℚ
deriving DecidableEq, Repr

/-- Summary of one stint (`STINT_NUMBER`, `STINT_LAPS`, `AVG_TOP_LAP_SEC`);
the stint's `lap_secs` are all non-null by construction of `Lap`. -/
def summarize (p : ℕ) (car : ℕ) (s : ℕ × List (ℕ × Lap)) : StintSummary :=
  let secs := s.2.map (fun q => q.2.lapTimeSec)
  ⟨car, s.1, secs.length, avgTopOf p secs⟩

/-- All per-stint summary rows of one class tab, cars in groupby order. -/
def stintSummaries (p : ℕ) (rows : List RawLap) : List StintSummary :=
  (carsOf (plotRows rows)).flatMap
    (fun car => (buildStints (carGroup (plotRows rows) car)).map (summarize p car))

/-- A row of the race dataframe as read by `get_overall_leader_by_lap`
(`race_stats.py`): `hour` is the parsed `HOUR_DT` (NaT when unparseable),
`elapsed` the parsed `ELAPSED` timedelta, `flagAtFl` the `FLAG_AT_FL`
cell with NaN as `none`. -/
structure TRow where
  lapNumber : ℕ
  carId : ℕ
  crossing : PyVal
  flagAtFl : Option String
  hour : Option ℚ
  elapsed : Option ℚ
deriving DecidableEq, Repr

/-- A sort key in which a missing time is largest, matching
`sort_values`' default `na_position="last"`. -/
def optKey (o : Option ℚ) : WithTop ℚ :=
  match o with
  | some q => (q : WithTop ℚ)
  | Option.none => ⊤

/-- Key of `df.sort_values(["LAP_NUMBER", "HOUR_DT", "ELAPSED"])`. -/
def rowKey (r : TRow) : Lex (ℕ × Lex (WithTop ℚ × WithTop ℚ)) :=
  toLex (r.lapNumber, toLex (optKey r.hour, optKey r.elapsed))

/-- The relation the leader sort orders by. -/
def rowSortRel (a b : TRow) : Prop := rowKey a ≤ rowKey b

instance : DecidableRel rowSortRel :=
  fun a b => inferInstanceAs (Decidable (_ ≤ _))

instance : IsTotal TRow rowSortRel := ⟨fun a b => le_total (rowKey a) (rowKey b)⟩

instance : IsTrans TRow rowSortRel := ⟨fun _ _ _ h1 h2 => le_trans h1 h2⟩

/-- The within-lap part of the key: `HOUR` first, `ELAPSED` as tiebreak. -/
def hourElapsedKey (r : TRow) : Lex (WithTop ℚ × WithTop ℚ) :=
  toLex (optKey r.hour, optKey r.elapsed)

/-- `df.sort_values(["LAP_NUMBER", "HOUR_DT", "ELAPSED"])` (stable). -/
def sortRows (df : List TRow) : List TRow :=
  df.insertionSort rowSortRel

/-- `df["LAP_NUMBER"].unique()`: lap numbers in order of first appearance. -/
def lapsOf (rows : List TRow) : List ℕ :=
  (rows.map (·.lapNumber)).dedup

/-- `lap_df = df[df["LAP_NUMBER"] == lap]`. -/
def lapRowsOf (rows : List TRow) (lap : ℕ) : List TRow :=
  rows.filter (fun r => decide (r.lapNumber = lap))

/-- `lap_df[lap_df["CROSSING_FINISH_LINE_IN_PIT"] != "B"]` (a NaN cell
compares unequal to `"B"` and is kept). -/
def eligRows (lapDf : List TRow) : List TRow :=
  lapDf.filter (fun r => decide (r.crossing ≠ PyVal.str "B"))

/-- The `if eligible_lap_df.empty: eligible_lap_df = lap_df` fallback. -/
def eligOrAll (lapDf : List TRow) : List TRow :=
  if eligRows lapDf = [] then lapDf else eligRows lapDf

/-- `flag = lap_df["FLAG_AT_FL"].dropna().unique()`, taken when exactly one
distinct non-null value exists. -/
def flagOf (lapDf : List TRow) : Option String :=
  match (lapDf.filterMap (·.flagAtFl)).dedup with
  | [f] => some f
  | _ => Option.none

/-- The leader chosen on one lap (`race_stats.py`, lines 113–120), given
the first row `d` of the eligible rows in sort order: on an FCY lap with a
known previous leader, keep that leader when it has an eligible row, else
take `d`. -/
def leaderChoice (rows : List TRow) (prev : Option ℕ) (lap : ℕ) (d : TRow) : TRow :=
  if flagOf (lapRowsOf rows lap) = some "FCY" ∧ prev ≠ Option.none then
    match (eligOrAll (lapRowsOf rows lap)).filter (fun r => decide (some r.carId = prev)) with
    | [] => d
    | r :: _ => r
  else d

/-- The per-lap loop of `get_overall_leader_by_lap` (`race_stats.py`,
lines 101–123), one leader row per lap. -/
def leadersAux (rows : List TRow) (prev : Option ℕ) : List ℕ → List TRow
  | [] => []
  | lap :: rest =>
    match (eligOrAll (lapRowsOf rows lap)).head? with
    | Option.none => leadersAux rows prev rest
    | some d =>
      leaderChoice rows prev lap d ::
        leadersAux rows (some (leaderChoice rows prev lap d).carId) rest

/-- `get_overall_leader_by_lap`: one leader row per distinct lap number. -/
def get_overall_leader_by_lap (df : List TRow) : List TRow :=
  leadersAux (sortRows df) Option.none (lapsOf (sortRows df))

/-- A per-car-and-lap row of the selected class in `show_results_table`
(`results_table.py`), after `ELAPSED_SECONDS` conversion and `dropna`. -/
structure RRow where
  number : ℕ
  lapNumber : ℕ
  elapsedSec : ℚ
deriving DecidableEq, Repr

/-- Group keys of `class_df.groupby("NUMBER")` (default `sort=True`):
car numbers ascending. -/
def rCars (rows : List RRow) : List ℕ :=
  ((rows.map (·.number)).dedup).insertionSort (· ≤ ·)

/-- `x.loc[x["LAP_NUMBER"].idxmax()]`: the first row of the car attaining
its maximal lap number. -/
def lastLapRowOf (rows : List RRow) (car : ℕ) : Option RRow :=
  let g := rows.filter (fun r => decide (r.number = car))
  g.find? (fun r => decide (r.lapNumber = (g.map (·.lapNumber)).foldl max 0))

/-- `last_lap_times` before the final sort: one row per car. -/
def finalRows (rows : List RRow) : List RRow :=
  (rCars rows).filterMap (lastLapRowOf rows)

/-- Key of `sort_values(by=["LAP_NUMBER", "ELAPSED_SECONDS"],
ascending=[False, True])`. -/
def resKey (r : RRow) : Lex (ℕᵒᵈ × ℚ) :=
  toLex (OrderDual.toDual r.lapNumber, r.elapsedSec)

/-- Laps-descending, elapsed-ascending order on the per-car rows. -/
def resRel (a b : RRow) : Prop := resKey a ≤ resKey b

instance : DecidableRel resRel :=
  fun a b => inferInstanceAs (Decidable (_ ≤ _))

instance : IsTotal RRow resRel := ⟨fun a b => le_total (resKey a) (resKey b)⟩

instance : IsTrans RRow resRel := ⟨fun _ _ _ h1 h2 => le_trans h1 h2⟩

/-- The classification order of `show_results_table`. -/
def orderedRows (rows : List RRow) : List RRow :=
  (finalRows rows).insertionSort resRel

/-- A `Gap to leader (s)` cell: a whole number of laps down, or a time
difference in seconds. -/
inductive Gap where
  | lapsDown (n : ℕ)
  | seconds (q : ℚ)
deriving DecidableEq, Repr

/-- `calculate_gap_to_leader` (`results_table.py`, lines 104–110):
`laps_down = leader_lap - row_lap`; at least one lap down is reported as
laps, otherwise as `ELAPSED_SECONDS - leader_time`. -/
def gapToLeader (leaderLap : ℕ) (leaderTime : ℚ) (r : RRow) : Gap :=
  if 1 ≤ leaderLap - r.lapNumber then .lapsDown (leaderLap - r.lapNumber)
  else .seconds (r.elapsedSec - leaderTime)

/-- The displayed classification: positions `1..n` in sorted order, each
with its gap to the row at position 1. -/
def show_results_table (rows : List RRow) : List (ℕ × RRow × Gap) :=
  match (orderedRows rows).head? with
  | Option.none => []
  | some lead =>
    (orderedRows rows).enum.map
      (fun p => (p.1 + 1, p.2, gapToLeader lead.lapNumber lead.elapsedSec p.2))

/-- Outcome of one call of `show_stint_pace_chart(df, team_colors)`. -/
inductive PageResult where
  | missingColumns (cols : List String)
  | nameError (n : String)
  | rendered
deriving DecidableEq, Repr

/-- The global names defined in module `stint_pace_chart` (its imports and
its own function); `selected_classes`, `selected_cars` and `top_percent`
are not among them and are not builtins. -/
def stintModuleGlobals : List String :=
  ["math", "pd", "px", "st", "show_stint_pace_chart"]

/-- The `required` column set checked at the top of the function. -/
def requiredColumns : List String :=
  ["CLASS", "NUMBER", "LAP_NUMBER", "LAP_TIME", "CROSSING_FINISH_LINE_IN_PIT", "TEAM"]

/-- `show_stint_pace_chart` up to its first read of a free name
(`stint_pace_chart.py`, lines 20–27): missing required columns return
early with a warning; otherwise evaluating `if selected_classes:` resolves
`selected_classes` against the module globals and builtins, raising
`NameError` when absent.  The remainder of the body is unreachable in that
case and is over-approximated as a rendered chart. -/
def show_stint_pace_chart_page (dfColumns : List String) : PageResult :=
  let missing := requiredColumns.filter (fun c => decide (c ∉ dfColumns))
  if missing ≠ [] then .missingColumns missing
  else if "selected_classes" ∈ stintModuleGlobals then .rendered
  else .nameError "selected_classes"

/-- `n_keep = max(1, int(n_laps * percent / 100))` from
`filter_top_percent_laps` (`pace-chart.py` lines 17–24 and
`driver_pace_chart.py` lines 53–60): the float truncation is the integer
floor for these magnitudes. -/
def keep_count (n percent : ℕ) : ℕ := max 1 (n * percent / 100)

/-- One group's kept laps: sort ascending by `LAP_TIME_SECONDS` (stable)
and keep the first `n_keep`. -/
def filter_top_group (percent : ℕ) (g : List ℚ) : List ℚ :=
  (g.insertionSort (· ≤ ·)).take (keep_count g.length percent)

/-- `filter_top_percent_laps` over the per-(car or car/driver) groups of
lap-time values. -/
def filter_top_percent_laps (percent : ℕ) (groups : List (List ℚ)) : List (List ℚ) :=
  groups.map (filter_top_group percent)

/-- Ordering of one lap's rows by `HOUR` then `ELAPSED` (missing last). -/
def hourElapsedLe (a b : TRow) : Prop := hourElapsedKey a ≤ hourElapsedKey b

instance : DecidableRel hourElapsedLe :=
  fun a b => inferInstanceAs (Decidable (_ ≤ _))

/-- The carry-forward situation as the code realises it: an FCY lap, a
known previous leader, and a row of that leader among the rows the lap
actually ranks (the non-"B" rows, or all rows when every row is "B"). -/
def carryCond (rows : List TRow) (prev : Option ℕ) (lap : ℕ) : Prop :=
  flagOf (lapRowsOf rows lap) = some "FCY" ∧
  ∃ pid, prev = some pid ∧ ∃ r ∈ eligOrAll (lapRowsOf rows lap), r.carId = pid

/-- What one lap's leader satisfies: it is one of the ranked rows; under
the carry-forward condition it is the previous leader; otherwise it is
minimal in the `HOUR`-then-`ELAPSED` order among the ranked rows. -/
def leaderStepSpec (rows : List TRow) (prev : Option ℕ) (lap : ℕ) (lead : TRow) : Prop :=
  lead ∈ eligOrAll (lapRowsOf rows lap) ∧
  (carryCond rows prev lap → prev = some lead.carId) ∧
  (¬ carryCond rows prev lap → ∀ r ∈ eligOrAll (lapRowsOf rows lap), hourElapsedLe lead r)

/-- The per-lap specification threaded along the leader list. -/
def leadersSpec (rows : List TRow) (prev : Option ℕ) : List ℕ → List TRow → Prop
  | [], out => out = []
  | lap :: laps, out =>
    match out with
    | [] => False
    | lead :: out' =>
      leaderStepSpec rows prev lap lead ∧ leadersSpec rows (some lead.carId) laps out'

/-- One lap of the claim *as stated*: eligibility never falls back to the
"B" rows — the carry-forward needs a previous-leader row *not marked "B"*,
and otherwise the leader must be a first-by-sort row among the non-"B"
rows. -/
def leaderStepStatedB (rows : List TRow) (prev : Option ℕ) (lap : ℕ) (lead : TRow) : Bool :=
  let carry := decide (flagOf (lapRowsOf rows lap) = some "FCY") &&
    (match prev with
     | some pid => (eligRows (lapRowsOf rows lap)).any (fun r => decide (r.carId = pid))
     | Option.none => false)
  if carry then decide (prev = some lead.carId)
  else decide (lead ∈ eligRows (lapRowsOf rows lap)) &&
    (eligRows (lapRowsOf rows lap)).all (fun r => decide (hourElapsedLe lead r))

/-- The claim as stated, threaded along the leader list. -/
def leadersSpecStatedB (rows : List TRow) (prev : Option ℕ) : List ℕ → List TRow → Bool
  | [], out => out.isEmpty
  | lap :: laps, out =>
    match out with
    | [] => false
    | lead :: out' =>
      leaderStepStatedB rows prev lap lead && leadersSpecStatedB rows (some lead.carId) laps out'

/-- **C2 as stated** for a whole dataframe. -/
def C2Stated (df : List TRow) : Prop :=
  leadersSpecStatedB (sortRows df) Option.none (lapsOf (sortRows df))
    (get_overall_leader_by_lap df) = true

/-! ### Helper lemmas about the parsing primitives -/

theorem pyIntE_not_typeError (l : List Char) :
    pyIntE l ≠ Except.error PyErr.typeError := by
  unfold pyIntE
  split <;> (split <;> simp)

theorem pyFloatSE_not_typeError (l : List Char) :
    pyFloatSE l ≠ Except.error PyErr.typeError := by
  unfold pyFloatSE
  simp only []
  split
  · simp
  · split <;> (split <;> simp)

theorem bindE_not_typeError {α β : Type} (x : Except PyErr α) (f : α → Except PyErr β)
    (hx : x ≠ Except.error PyErr.typeError)
    (hf : ∀ a, f a ≠ Except.error PyErr.typeError) :
    (x >>= f) ≠ Except.error PyErr.typeError := by
  cases x with
  | ok a =>
    have h : (Except.ok a >>= f : Except PyErr β) = f a := rfl
    rw [h]; exact hf a
  | error e =>
    have h : (Except.error e >>= f : Except PyErr β) = Except.error e := rfl
    rw [h]
    intro hh
    exact hx (by rw [Except.error.inj hh])

theorem colonTimeTry_not_typeError (s : List Char) :
    colonTimeTry s ≠ Except.error PyErr.typeError := by
  unfold colonTimeTry
  split
  · exact bindE_not_typeError _ _ (pyIntE_not_typeError _) (fun mi =>
      bindE_not_typeError _ _ (pyFloatSE_not_typeError _) (fun f => by simp [pure, Except.pure]))
  · exact bindE_not_typeError _ _ (pyIntE_not_typeError _) (fun hi =>
      bindE_not_typeError _ _ (pyIntE_not_typeError _) (fun mi =>
        bindE_not_typeError _ _ (pyFloatSE_not_typeError _) (fun f => by simp [pure, Except.pure])))
  · exact pyFloatSE_not_typeError _

/-! ### C8: the stint-pace page can never display -/

/-- **C8, counterexample to the claim as stated**: a dataframe missing the
required columns makes `show_stint_pace_chart` return early with a warning
instead of raising `NameError`, so not *every* call raises. -/
theorem stint_page_missing_columns_returns_early :
    show_stint_pace_chart_page [] = PageResult.missingColumns requiredColumns ∧
    PageResult.missingColumns requiredColumns ≠ PageResult.nameError "selected_classes" := by
  decide

/-- **C8 (amended)**: whenever the dataframe has all required columns, the
call raises `NameError` on the free name `selected_classes` (which is
neither a parameter nor defined in module `stint_pace_chart`); with columns
missing it returns early after a warning.  In both cases no chart is ever
rendered. -/
theorem stint_page_never_renders (dfColumns : List String) :
    ((∀ c ∈ requiredColumns, c ∈ dfColumns) →
      show_stint_pace_chart_page dfColumns = PageResult.nameError "selected_classes") ∧
    show_stint_pace_chart_page dfColumns ≠ PageResult.rendered := by
  constructor
  · intro h
    have hm : requiredColumns.filter (fun c => decide (c ∉ dfColumns)) = [] := by
      rw [List.filter_eq_nil]
      intro a ha
      simpa using h a ha
    simp only [show_stint_pace_chart_page, hm, ne_eq, not_true_eq_false, if_false,
      stintModuleGlobals]
    decide
  · by_cases hm : requiredColumns.filter (fun c => decide (c ∉ dfColumns)) = []
    · simp only [show_stint_pace_chart_page, hm, ne_eq, not_true_eq_false, if_false,
        stintModuleGlobals]
      decide
    · simp only [show_stint_pace_chart_page, ne_eq, hm, not_false_eq_true, if_true]
      simp

theorem stint_page_never_renders_witness :
    show_stint_pace_chart_page requiredColumns = PageResult.nameError "selected_classes" :=
  (stint_page_never_renders requiredColumns).1 (fun _ hc => hc)

/-! ### C9: the top-percent filter always keeps a lap per group -/

/-- **C9**: for every percent `0..100` and every nonempty group,
`filter_top_percent_laps` keeps `max(1, ⌊n·percent/100⌋)` laps of the
group (sorted fastest-first), hence at least one — and the group's fastest
lap is always among them, even at `percent = 0`. -/
theorem filter_top_percent_keeps_one_lap (percent : ℕ) (groups : List (List ℚ))
    (g : List ℚ) (hp : percent ≤ 100) (hg : g ∈ groups) (hne : g ≠ []) :
    filter_top_group percent g ∈ filter_top_percent_laps percent groups ∧
    (filter_top_group percent g).length = max 1 (g.length * percent / 100) ∧
    1 ≤ (filter_top_group percent g).length ∧
    ∃ x, (filter_top_group percent g).head? = some x ∧ ∀ y ∈ g, x ≤ y := by
  haveI : IsTotal ℚ (· ≤ ·) := ⟨le_total⟩
  haveI : IsTrans ℚ (· ≤ ·) := ⟨fun _ _ _ h1 h2 => le_trans h1 h2⟩
  have hn : 0 < g.length := List.length_pos.mpr hne
  have hsortlen : (g.insertionSort (· ≤ ·)).length = g.length :=
    (List.perm_insertionSort (· ≤ ·) g).length_eq
  have hdiv : g.length * percent / 100 ≤ g.length := by
    calc g.length * percent / 100 ≤ g.length * 100 / 100 :=
          Nat.div_le_div_right (Nat.mul_le_mul_left _ hp)
      _ = g.length := Nat.mul_div_cancel _ (by norm_num)
  have hk1 : 1 ≤ keep_count g.length percent := by
    unfold keep_count; omega
  have hkle : keep_count g.length percent ≤ g.length := by
    unfold keep_count; omega
  have hlen : (filter_top_group percent g).length = keep_count g.length percent := by
    unfold filter_top_group
    rw [List.length_take, hsortlen]
    omega
  refine ⟨List.mem_map_of_mem _ hg, ?_, ?_, ?_⟩
  · rw [hlen]; rfl
  · rw [hlen]; exact hk1
  · rcases heq : g.insertionSort (· ≤ ·) with _ | ⟨x, t⟩
    · rw [heq] at hsortlen; simp at hsortlen; omega
    · refine ⟨x, ?_, ?_⟩
      · unfold filter_top_group
        obtain ⟨k, hk'⟩ : ∃ k, keep_count g.length percent = k + 1 :=
          ⟨keep_count g.length percent - 1, by omega⟩
        rw [heq, hk', List.take_succ_cons]
        rfl
      · intro y hy
        have hperm := List.perm_insertionSort (· ≤ ·) g
        have hys : y ∈ x :: t := heq ▸ hperm.mem_iff.mpr hy
        have hsorted := List.sorted_insertionSort (· ≤ ·) g
        rw [heq] at hsorted
        rcases List.mem_cons.mp hys with h | h
        · exact le_of_eq h.symm
        · exact (List.sorted_cons.mp hsorted).1 y h

theorem filter_top_percent_keeps_one_lap_witness :
    (0 : ℕ) ≤ 100 ∧ 1 ≤ (filter_top_group 0 [(5 : ℚ), 3]).length :=
  ⟨by decide,
    (filter_top_percent_keeps_one_lap 0 [[(5 : ℚ), 3]] [(5 : ℚ), 3]
      (by decide) (by decide) (by decide)).2.2.1⟩

/-! ### C5: parser totality and fallbacks -/

/-- **C5, counterexample to the claim as stated**: on a missing value (the
float NaN) `time_to_seconds` does not return `None`: `str(nan)` has no
colon, so the final branch computes `float(nan)`, which is NaN. -/
theorem time_to_seconds_nan_not_none :
    time_to_seconds PyVal.nanV = PyOut.nan ∧ PyOut.nan ≠ PyOut.none := by
  decide

/-- **C5 (amended)**: the three parsers are total — `lap_time_to_seconds`
and `parse_pit_time` never propagate an exception and return NaN
respectively `0.0` on missing values; `time_to_seconds` (whose
`except Exception` makes it total by construction) returns `None` *or NaN*
on a missing value; and every row kept by the stint-chart preprocessing
carries a successfully parsed lap time. -/
theorem parsers_never_raise_and_fallback :
    (∀ v : PyVal, ∃ r, lap_time_to_seconds v = Except.ok r) ∧
    (∀ v : PyVal, ∃ r, parse_pit_time v = Except.ok r) ∧
    (∀ v : PyVal, pdIsna v = true →
      lap_time_to_seconds v = Except.ok PyOut.nan ∧
      parse_pit_time v = Except.ok (PyOut.val 0) ∧
      (time_to_seconds v = PyOut.none ∨ time_to_seconds v = PyOut.nan)) ∧
    (∀ raw : RawLap, ∀ lp : Lap, toLapRow raw = some lp →
      time_to_seconds raw.lapTime = PyOut.val lp.lapTimeSec) ∧
    (∀ rows : List RawLap, ∀ lp : Lap, lp ∈ plotRows rows →
      ∃ raw ∈ rows, toLapRow raw = some lp) ∧
    (∀ s : String,
      (pyStrip s.toList = [] ∨ pyLower (pyStrip s.toList) ∈ missingStrings ∨
        colonTimeTry (pyStrip s.toList) = Except.error PyErr.valueError) →
      lap_time_to_seconds (PyVal.str s) = Except.ok PyOut.nan ∧
      parse_pit_time (PyVal.str s) = Except.ok (PyOut.val 0)) := by
  refine ⟨?_, ?_, ?_, ?_, ?_, ?_⟩
  · intro v
    unfold lap_time_to_seconds
    split
    · exact ⟨.nan, rfl⟩
    · dsimp only
      split
      · exact ⟨.nan, rfl⟩
      · cases h : colonTimeTry (pyStrip (pyStr v).toList) with
        | ok r => exact ⟨r, by simp [h]⟩
        | error e =>
          cases e with
          | valueError => exact ⟨.nan, by simp [h]⟩
          | typeError => exact absurd h (colonTimeTry_not_typeError _)
  · intro v
    unfold parse_pit_time
    split
    · exact ⟨.val 0, rfl⟩
    · dsimp only
      split
      · exact ⟨.val 0, rfl⟩
      · cases h : colonTimeTry (pyStrip (pyStr v).toList) with
        | ok r => exact ⟨r, by simp [h]⟩
        | error e =>
          cases e with
          | valueError => exact ⟨.val 0, by simp [h]⟩
          | typeError => exact absurd h (colonTimeTry_not_typeError _)
  · intro v hv
    have hcases : v = PyVal.nanV ∨ v = PyVal.noneV := by
      cases v with
      | str s => simp [pdIsna] at hv
      | nanV => exact Or.inl rfl
      | noneV => exact Or.inr rfl
    rcases hcases with h | h <;> subst h
    · exact ⟨by decide, by decide, Or.inr (by decide)⟩
    · exact ⟨by decide, by decide, Or.inl (by decide)⟩
  · intro raw lp hlp
    unfold toLapRow at hlp
    split at hlp
    · rename_i q heq
      cases hlp
      exact heq
    · exact absurd hlp (by simp)
  · intro rows lp hlp
    have hmem : lp ∈ (rows.filterMap toLapRow) :=
      ((List.perm_insertionSort lapSortRel (rows.filterMap toLapRow)).mem_iff).mp hlp
    exact List.mem_filterMap.mp hmem
  · intro s hbad
    have hna : pdIsna (PyVal.str s) = false := rfl
    by_cases hg : pyStrip s.toList = [] ∨ pyLower (pyStrip s.toList) ∈ missingStrings
    · constructor
      · unfold lap_time_to_seconds
        rw [hna]
        simp only [Bool.false_eq_true, if_false]
        dsimp only [pyStr]
        rw [if_pos hg]
      · unfold parse_pit_time
        rw [hna]
        simp only [Bool.false_eq_true, if_false]
        dsimp only [pyStr]
        rw [if_pos hg]
    · have hct : colonTimeTry (pyStrip s.toList) = Except.error PyErr.valueError := by
        rcases hbad with h | h | h
        · exact absurd (Or.inl h) hg
        · exact absurd (Or.inr h) hg
        · exact h
      constructor
      · unfold lap_time_to_seconds
        rw [hna]
        simp only [Bool.false_eq_true, if_false]
        dsimp only [pyStr]
        rw [if_neg hg, hct]
      · unfold parse_pit_time
        rw [hna]
        simp only [Bool.false_eq_true, if_false]
        dsimp only [pyStr]
        rw [if_neg hg, hct]

theorem parsers_never_raise_and_fallback_witness :
    pdIsna PyVal.nanV = true ∧ lap_time_to_seconds PyVal.nanV = Except.ok PyOut.nan ∧
    colonTimeTry (pyStrip "abc".toList) = Except.error PyErr.valueError ∧
    lap_time_to_seconds (PyVal.str "abc") = Except.ok PyOut.nan ∧
    parse_pit_time (PyVal.str "abc") = Except.ok (PyOut.val 0) :=
  ⟨by decide, (parsers_never_raise_and_fallback.2.2.1 PyVal.nanV (by decide)).1,
    by decide,
    (parsers_never_raise_and_fallback.2.2.2.2.2 "abc" (Or.inr (Or.inr (by decide)))).1,
    (parsers_never_raise_and_fallback.2.2.2.2.2 "abc" (Or.inr (Or.inr (by decide)))).2⟩

/-! ### C6: the two lap-time parsers agree on well-formed times -/

/-- Joining the pieces of a split with the separator. -/
def sepJoin (c : Char) : List (List Char) → List Char
  | [] => []
  | [x] => x
  | x :: xs => x ++ c :: sepJoin c xs

theorem pySplit_ne_nil (l : List Char) (c : Char) : pySplit l c ≠ [] := by
  cases l with
  | nil => simp [pySplit]
  | cons a rest =>
    unfold pySplit
    cases h : pySplit rest c with
    | nil => simp
    | cons g gs =>
      by_cases hac : a = c <;> simp [hac]

theorem sepJoin_cons_cons (c a : Char) (g : List Char) (gs : List (List Char)) :
    sepJoin c ((a :: g) :: gs) = a :: sepJoin c (g :: gs) := by
  cases gs <;> rfl

theorem pySplit_sepJoin (l : List Char) (c : Char) : sepJoin c (pySplit l c) = l := by
  induction l with
  | nil => rfl
  | cons a rest ih =>
    unfold pySplit
    cases hsp : pySplit rest c with
    | nil => exact absurd hsp (pySplit_ne_nil rest c)
    | cons g gs =>
      rw [hsp] at ih
      dsimp only
      by_cases hac : a = c
      · subst hac
        rw [if_pos rfl]
        show a :: sepJoin a (g :: gs) = a :: rest
        rw [ih]
      · rw [if_neg hac, sepJoin_cons_cons, ih]

theorem pySplit_two {l : List Char} {c : Char} {a b : List Char}
    (h : pySplit l c = [a, b]) : l = a ++ c :: b := by
  have hj := pySplit_sepJoin l c
  rw [h] at hj
  exact hj.symm

theorem pySplit_three {l : List Char} {c : Char} {a b d : List Char}
    (h : pySplit l c = [a, b, d]) : l = a ++ c :: (b ++ c :: d) := by
  have hj := pySplit_sepJoin l c
  rw [h] at hj
  exact hj.symm

theorem colon_notin_missing (l : List Char) (h : ':' ∈ l) :
    pyLower l ∉ missingStrings := by
  intro hmem
  have h2 : ':' ∈ pyLower l := by
    have hc : Char.toLower ':' = ':' := by decide
    exact hc ▸ List.mem_map_of_mem Char.toLower h
  have h3 : pyLower l = "nan".toList ∨ pyLower l = "na".toList ∨ pyLower l = "none".toList := by
    simpa [missingStrings] using hmem
  rcases h3 with h3 | h3 | h3 <;> rw [h3] at h2 <;> revert h2 <;> decide

theorem colonTimeTry_two {l m rest : List Char} {mi : ℤ} {f : PyOut}
    (hsplit : pySplit l ':' = [m, rest])
    (hmi : pyIntE m = Except.ok mi) (hf : pyFloatSE rest = Except.ok f) :
    colonTimeTry l = Except.ok (addWhole (mi * 60) f) := by
  unfold colonTimeTry
  rw [hsplit]
  show (pyIntE m >>= fun mi => pyFloatSE rest >>= fun f => pure (addWhole (mi * 60) f)) = _
  rw [hmi]
  show (pyFloatSE rest >>= fun f => pure (addWhole (mi * 60) f)) = _
  rw [hf]
  rfl

theorem colonTimeTry_three {l h m rest : List Char} {hi mi : ℤ} {f : PyOut}
    (hsplit : pySplit l ':' = [h, m, rest])
    (hhi : pyIntE h = Except.ok hi) (hmi : pyIntE m = Except.ok mi)
    (hf : pyFloatSE rest = Except.ok f) :
    colonTimeTry l = Except.ok (addWhole (hi * 3600 + mi * 60) f) := by
  unfold colonTimeTry
  rw [hsplit]
  show (pyIntE h >>= fun hi => pyIntE m >>= fun mi => pyFloatSE rest >>= fun f =>
    pure (addWhole (hi * 3600 + mi * 60) f)) = _
  rw [hhi]
  show (pyIntE m >>= fun mi => pyFloatSE rest >>= fun f =>
    pure (addWhole (hi * 3600 + mi * 60) f)) = _
  rw [hmi]
  show (pyFloatSE rest >>= fun f => pure (addWhole (hi * 3600 + mi * 60) f)) = _
  rw [hf]
  rfl

theorem time_try_two {s : String} {m rest : List Char} {mi : ℤ} {f : PyOut}
    (hsplit : pySplit s.toList ':' = [m, rest])
    (hmi : pyIntE m = Except.ok mi) (hf : pyFloatSE rest = Except.ok f) :
    time_to_seconds_try (PyVal.str s) = Except.ok (addWhole (mi * 60) f) := by
  unfold time_to_seconds_try
  show (match pySplit s.toList ':' with
    | [h, m, c] => pyIntE h >>= fun hi => pyIntE m >>= fun mi => pyFloatSE c >>= fun f =>
        pure (addWhole (hi * 3600 + mi * 60) f)
    | [m, c] => pyIntE m >>= fun mi => pyFloatSE c >>= fun f => pure (addWhole (mi * 60) f)
    | _ => pyFloatV (PyVal.str s)) = _
  rw [hsplit]
  show (pyIntE m >>= fun mi => pyFloatSE rest >>= fun f => pure (addWhole (mi * 60) f)) = _
  rw [hmi]
  show (pyFloatSE rest >>= fun f => pure (addWhole (mi * 60) f)) = _
  rw [hf]
  rfl

theorem time_try_three {s : String} {h m rest : List Char} {hi mi : ℤ} {f : PyOut}
    (hsplit : pySplit s.toList ':' = [h, m, rest])
    (hhi : pyIntE h = Except.ok hi) (hmi : pyIntE m = Except.ok mi)
    (hf : pyFloatSE rest = Except.ok f) :
    time_to_seconds_try (PyVal.str s) = Except.ok (addWhole (hi * 3600 + mi * 60) f) := by
  unfold time_to_seconds_try
  show (match pySplit s.toList ':' with
    | [h, m, c] => pyIntE h >>= fun hi => pyIntE m >>= fun mi => pyFloatSE c >>= fun f =>
        pure (addWhole (hi * 3600 + mi * 60) f)
    | [m, c] => pyIntE m >>= fun mi => pyFloatSE c >>= fun f => pure (addWhole (mi * 60) f)
    | _ => pyFloatV (PyVal.str s)) = _
  rw [hsplit]
  show (pyIntE h >>= fun hi => pyIntE m >>= fun mi => pyFloatSE rest >>= fun f =>
    pure (addWhole (hi * 3600 + mi * 60) f)) = _
  rw [hhi]
  show (pyIntE m >>= fun mi => pyFloatSE rest >>= fun f =>
    pure (addWhole (hi * 3600 + mi * 60) f)) = _
  rw [hmi]
  show (pyFloatSE rest >>= fun f => pure (addWhole (hi * 3600 + mi * 60) f)) = _
  rw [hf]
  rfl

theorem lap_time_of_colonTimeTry {s : String} {r : PyOut}
    (hstrip : pyStrip s.toList = s.toList)
    (hne : s.toList ≠ []) (hguard : pyLower s.toList ∉ missingStrings)
    (hct : colonTimeTry s.toList = Except.ok r) :
    lap_time_to_seconds (PyVal.str s) = Except.ok r := by
  unfold lap_time_to_seconds
  have hna : pdIsna (PyVal.str s) = false := rfl
  rw [hna]
  dsimp only [pyStr]
  rw [hstrip]
  have hcond : ¬(s.toList = [] ∨ pyLower s.toList ∈ missingStrings) := by
    intro hc
    rcases hc with hc | hc
    · exact hne hc
    · exact hguard hc
  rw [if_neg hcond, hct]
  simp

/-- **C6**: on every well-formed lap-time string — two or three
colon-separated fields, self-stripped, leading fields accepted by `int()`
and the last by `float()` — `lap_time_to_seconds`
(`race_tyre_analysis.py`) and `time_to_seconds` (`stint_pace_chart.py`)
compute the same number of seconds. -/
theorem lap_time_parsers_agree (s : String) (hstrip : pyStrip s.toList = s.toList) :
    (∀ m rest : List Char, pySplit s.toList ':' = [m, rest] →
      ∀ mi : ℤ, pyIntE m = Except.ok mi →
      ∀ f : PyOut, pyFloatSE rest = Except.ok f →
        lap_time_to_seconds (PyVal.str s) = Except.ok (addWhole (mi * 60) f) ∧
        time_to_seconds (PyVal.str s) = addWhole (mi * 60) f) ∧
    (∀ h m rest : List Char, pySplit s.toList ':' = [h, m, rest] →
      ∀ hi : ℤ, pyIntE h = Except.ok hi →
      ∀ mi : ℤ, pyIntE m = Except.ok mi →
      ∀ f : PyOut, pyFloatSE rest = Except.ok f →
        lap_time_to_seconds (PyVal.str s) = Except.ok (addWhole (hi * 3600 + mi * 60) f) ∧
        time_to_seconds (PyVal.str s) = addWhole (hi * 3600 + mi * 60) f) := by
  constructor
  · intro m rest hsplit mi hmi f hf
    have hl : s.toList = m ++ ':' :: rest := pySplit_two hsplit
    have hne : s.toList ≠ [] := by rw [hl]; simp
    have hcolon : ':' ∈ s.toList := by rw [hl]; simp
    refine ⟨lap_time_of_colonTimeTry hstrip hne (colon_notin_missing _ hcolon)
        (colonTimeTry_two hsplit hmi hf), ?_⟩
    unfold time_to_seconds
    rw [time_try_two hsplit hmi hf]
  · intro h m rest hsplit hi hhi mi hmi f hf
    have hl : s.toList = h ++ ':' :: (m ++ ':' :: rest) := pySplit_three hsplit
    have hne : s.toList ≠ [] := by rw [hl]; simp
    have hcolon : ':' ∈ s.toList := by rw [hl]; simp
    refine ⟨lap_time_of_colonTimeTry hstrip hne (colon_notin_missing _ hcolon)
        (colonTimeTry_three hsplit hhi hmi hf), ?_⟩
    unfold time_to_seconds
    rw [time_try_three hsplit hhi hmi hf]

theorem lap_time_parsers_agree_witness :
    lap_time_to_seconds (PyVal.str "1:26.345") =
      Except.ok (addWhole (1 * 60) (PyOut.val (mkRat 26345 1000))) ∧
    time_to_seconds (PyVal.str "1:26.345") = addWhole (1 * 60) (PyOut.val (mkRat 26345 1000)) :=
  (lap_time_parsers_agree "1:26.345" (by decide)).1 ['1'] ['2', '6', '.', '3', '4', '5']
    (by decide) 1 (by decide) (PyOut.val (mkRat 26345 1000)) (by decide)

/-! ### C10: formatting round-trips with parsing -/

theorem digitsToNat_foldl (acc : ℕ) (l : List Char) :
    l.foldl (fun a c => a * 10 + (c.toNat - 48)) acc =
      acc * 10 ^ l.length + digitsToNat l := by
  induction l generalizing acc with
  | nil => simp [digitsToNat]
  | cons c t ih =>
    show t.foldl _ (acc * 10 + (c.toNat - 48)) = _
    rw [ih]
    have h2 : digitsToNat (c :: t) = (c.toNat - 48) * 10 ^ t.length + digitsToNat t := by
      show t.foldl _ ((0 : ℕ) * 10 + (c.toNat - 48)) = _
      rw [ih]
      ring_nf
    rw [h2]
    simp [List.length_cons, pow_succ]
    ring

theorem digitsToNat_append (a b : List Char) :
    digitsToNat (a ++ b) = digitsToNat a * 10 ^ b.length + digitsToNat b := by
  unfold digitsToNat
  rw [List.foldl_append]
  exact digitsToNat_foldl _ b

theorem digitsToNat_singleton (c : Char) : digitsToNat [c] = c.toNat - 48 := by
  simp [digitsToNat]

theorem digitsToNat_replicate_zero (k : ℕ) :
    digitsToNat (List.replicate k '0') = 0 := by
  induction k with
  | zero => rfl
  | succ k ih =>
    rw [List.replicate_succ]
    show List.foldl _ ((0 : ℕ) * 10 + ('0'.toNat - 48)) _ = 0
    have : (0 : ℕ) * 10 + ('0'.toNat - 48) = 0 := by decide
    rw [this]
    exact ih

theorem digitsToNat_padZeros (k : ℕ) (l : List Char) :
    digitsToNat (padZeros k l) = digitsToNat l := by
  unfold padZeros
  rw [digitsToNat_append, digitsToNat_replicate_zero]
  simp

theorem digitChar_toNat {d : ℕ} (h : d < 10) : (digitChar d).toNat = 48 + d := by
  interval_cases d <;> decide

theorem digitChar_isDigit {d : ℕ} (h : d < 10) : (digitChar d).isDigit = true := by
  interval_cases d <;> decide

theorem natDigits_ne_nil (n : ℕ) : natDigits n ≠ [] := by
  rw [natDigits]
  split
  · simp
  · simp

theorem natDigits_all_digit (n : ℕ) : (natDigits n).all Char.isDigit = true := by
  induction n using Nat.strong_induction_on with
  | _ n ih =>
    rw [natDigits]
    split
    · rename_i h
      simp [digitChar_isDigit h]
    · rename_i h
      rw [List.all_append]
      have h1 := ih (n / 10) (Nat.div_lt_self (by omega) (by omega))
      have h2 : (natDigits (n / 10)).all Char.isDigit = true := h1
      simp only [h2, Bool.true_and, List.all_cons, List.all_nil, Bool.and_true]
      exact digitChar_isDigit (Nat.mod_lt _ (by omega))

theorem digitsToNat_natDigits (n : ℕ) : digitsToNat (natDigits n) = n := by
  induction n using Nat.strong_induction_on with
  | _ n ih =>
    rw [natDigits]
    split
    · rename_i h
      rw [digitsToNat_singleton, digitChar_toNat h]
      omega
    · rename_i h
      rw [digitsToNat_append]
      rw [ih (n / 10) (Nat.div_lt_self (by omega) (by omega))]
      have hm : (digitChar (n % 10)).toNat = 48 + n % 10 :=
        digitChar_toNat (Nat.mod_lt _ (by omega))
      rw [digitsToNat_singleton, hm]
      simp only [List.length_singleton, pow_one]
      omega

theorem natDigits_length_le (k : ℕ) : ∀ n : ℕ, n < 10 ^ k → 1 ≤ k → (natDigits n).length ≤ k := by
  induction k with
  | zero => intro n _ h1; omega
  | succ k ih =>
    intro n hn _
    rw [natDigits]
    split
    · simp
    · rename_i h
      rw [List.length_append]
      have hk : 1 ≤ k := by
        by_contra hk
        have : k = 0 := by omega
        subst this
        simp at hn
        omega
      have hdiv : n / 10 < 10 ^ k := by
        rw [Nat.div_lt_iff_lt_mul (by omega)]
        calc n < 10 ^ (k + 1) := hn
          _ = 10 ^ k * 10 := by rw [pow_succ]
      have := ih (n / 10) hdiv hk
      simp only [List.length_singleton]
      omega

theorem isDigit_char_classes (c : Char) (h : c.isDigit = true) :
    pySpace c = false ∧ c ≠ ':' ∧ c ≠ '.' ∧ c ≠ '-' ∧ c ≠ '+' := by
  refine ⟨?_, ?_, ?_, ?_, ?_⟩
  · by_contra hs
    have hs' : pySpace c = true := by
      cases hp : pySpace c
      · exact absurd hp hs
      · rfl
    have : c = ' ' ∨ c = '\t' ∨ c = '\n' ∨ c = '\r' := by
      simpa [pySpace] using hs'
    rcases this with h1 | h1 | h1 | h1 <;> subst h1 <;> simp at h
  · intro h1; subst h1; simp at h
  · intro h1; subst h1; simp at h
  · intro h1; subst h1; simp at h
  · intro h1; subst h1; simp at h

theorem dropWhile_eq_self_of_none {p : Char → Bool} {l : List Char}
    (h : ∀ c ∈ l, p c = false) : l.dropWhile p = l := by
  cases l with
  | nil => rfl
  | cons c t =>
    rw [List.dropWhile_cons]
    rw [h c (List.mem_cons_self c t)]
    simp

theorem pyStrip_eq_self {l : List Char} (h : ∀ c ∈ l, pySpace c = false) :
    pyStrip l = l := by
  unfold pyStrip
  rw [dropWhile_eq_self_of_none h]
  rw [dropWhile_eq_self_of_none (fun c hc => h c (List.mem_reverse.mp hc))]
  exact List.reverse_reverse l

theorem pySplit_no_sep {l : List Char} {c : Char} (h : c ∉ l) : pySplit l c = [l] := by
  induction l with
  | nil => rfl
  | cons a t ih =>
    unfold pySplit
    rw [ih (fun hc => h (List.mem_cons_of_mem a hc))]
    have hac : a ≠ c := fun he => h (he ▸ List.mem_cons_self a t)
    simp [hac]

theorem pySplit_append_sep {a b : List Char} {c : Char} (h : c ∉ a) :
    pySplit (a ++ c :: b) c = a :: pySplit b c := by
  induction a with
  | nil =>
    show pySplit (c :: b) c = [] :: pySplit b c
    have hstep : pySplit (c :: b) c = (match pySplit b c with
      | [] => ([[]] : List (List Char))
      | g :: gs => if c = c then [] :: g :: gs else (c :: g) :: gs) := rfl
    rw [hstep]
    cases hb : pySplit b c with
    | nil => exact absurd hb (pySplit_ne_nil b c)
    | cons g gs => simp
  | cons x xs ih =>
    have hx : x ≠ c := fun he => h (he ▸ List.mem_cons_self x xs)
    have hxs : c ∉ xs := fun hc => h (List.mem_cons_of_mem x hc)
    show pySplit (x :: (xs ++ c :: b)) c = (x :: xs) :: pySplit b c
    have hstep : pySplit (x :: (xs ++ c :: b)) c = (match pySplit (xs ++ c :: b) c with
      | [] => ([[]] : List (List Char))
      | g :: gs => if x = c then [] :: g :: gs else (x :: g) :: gs) := rfl
    rw [hstep, ih hxs]
    simp [hx]

theorem pyIntE_natDigits (n : ℕ) : pyIntE (natDigits n) = Except.ok (n : ℤ) := by
  have hdig : ∀ c ∈ natDigits n, c.isDigit = true := by
    intro c hc
    exact List.all_eq_true.mp (natDigits_all_digit n) c hc
  have hstrip : pyStrip (natDigits n) = natDigits n :=
    pyStrip_eq_self (fun c hc => (isDigit_char_classes c (hdig c hc)).1)
  have hparse : parseUDigits (natDigits n) = some n := by
    unfold parseUDigits
    rw [if_pos ⟨natDigits_ne_nil n, natDigits_all_digit n⟩]
    rw [digitsToNat_natDigits]
  unfold pyIntE
  rw [hstrip]
  cases hd : natDigits n with
  | nil => exact absurd hd (natDigits_ne_nil n)
  | cons c t =>
    have hc : c.isDigit = true := hdig c (hd ▸ List.mem_cons_self c t)
    have h1 : c ≠ '-' := (isDigit_char_classes c hc).2.2.2.1
    have h2 : c ≠ '+' := (isDigit_char_classes c hc).2.2.2.2
    rw [hd] at hparse
    split
    · rename_i heq
      rw [List.cons.injEq] at heq
      exact absurd heq.1 h1
    · rename_i heq
      rw [List.cons.injEq] at heq
      exact absurd heq.1 h2
    · rw [hparse]

theorem pyFloatSE_digits_dot {a b : List Char}
    (ha : a.all Char.isDigit = true) (hb : b.all Char.isDigit = true) (hne : a ≠ []) :
    pyFloatSE (a ++ '.' :: b) =
      Except.ok (.val (mkRat (digitsToNat a * 10 ^ b.length + digitsToNat b) (10 ^ b.length))) := by
  have hdig : ∀ c ∈ a ++ '.' :: b, c.isDigit = true ∨ c = '.' := by
    intro c hc
    rcases List.mem_append.mp hc with h | h
    · exact Or.inl (List.all_eq_true.mp ha c h)
    · rcases List.mem_cons.mp h with h | h
      · exact Or.inr h
      · exact Or.inl (List.all_eq_true.mp hb c h)
  have hnospace : ∀ c ∈ a ++ '.' :: b, pySpace c = false := by
    intro c hc
    rcases hdig c hc with h | h
    · exact (isDigit_char_classes c h).1
    · subst h; decide
  have hstrip : pyStrip (a ++ '.' :: b) = a ++ '.' :: b := pyStrip_eq_self hnospace
  have hdot : '.' ∈ a ++ '.' :: b := List.mem_append.mpr (Or.inr (List.mem_cons_self _ _))
  have hnan : pyLower (a ++ '.' :: b) ≠ "nan".toList := by
    intro he
    have h2 : '.' ∈ pyLower (a ++ '.' :: b) := by
      have hc : Char.toLower '.' = '.' := by decide
      exact hc ▸ List.mem_map_of_mem Char.toLower hdot
    rw [he] at h2
    revert h2
    decide
  have hdotna : '.' ∉ a := by
    intro hc
    have := List.all_eq_true.mp ha _ hc
    exact (isDigit_char_classes _ this).2.2.1 rfl
  have hdotnb : '.' ∉ b := by
    intro hc
    have := List.all_eq_true.mp hb _ hc
    exact (isDigit_char_classes _ this).2.2.1 rfl
  have hparse : parseUFracParts (a ++ '.' :: b) = some
      (digitsToNat a * 10 ^ b.length + digitsToNat b, 10 ^ b.length) := by
    unfold parseUFracParts
    rw [pySplit_append_sep hdotna, pySplit_no_sep hdotnb]
    show (if a.all Char.isDigit = true ∧ b.all Char.isDigit = true ∧ (a ≠ [] ∨ b ≠ []) then
        some (digitsToNat a * 10 ^ b.length + digitsToNat b, 10 ^ b.length)
      else none : Option (ℕ × ℕ)) = _
    rw [if_pos ⟨ha, hb, Or.inl hne⟩]
  unfold pyFloatSE
  simp only [hstrip]
  rw [if_neg hnan]
  obtain ⟨c, t, rfl⟩ : ∃ c t, a = c :: t := by
    cases a with
    | nil => exact absurd rfl hne
    | cons c t => exact ⟨c, t, rfl⟩
  have hc : c.isDigit = true := List.all_eq_true.mp ha c (List.mem_cons_self c t)
  have h1 : c ≠ '-' := (isDigit_char_classes c hc).2.2.2.1
  have h2 : c ≠ '+' := (isDigit_char_classes c hc).2.2.2.2
  rw [List.cons_append]
  rw [List.cons_append] at hparse
  split
  · rename_i heq
    rw [List.cons.injEq] at heq
    exact absurd heq.1 h1
  · rename_i heq
    rw [List.cons.injEq] at heq
    exact absurd heq.1 h2
  · rw [hparse]
    show Except.ok (PyOut.val (mkRat
      ((digitsToNat (c :: t) * 10 ^ b.length + digitsToNat b : ℕ) : ℤ) (10 ^ b.length))) = _
    have hcast : ((digitsToNat (c :: t) * 10 ^ b.length + digitsToNat b : ℕ) : ℤ) =
        (digitsToNat (c :: t) : ℤ) * 10 ^ b.length + (digitsToNat b : ℤ) := by
      push_cast
      ring
    rw [hcast]

theorem padZeros_all_digit (k : ℕ) {l : List Char} (h : l.all Char.isDigit = true) :
    (padZeros k l).all Char.isDigit = true := by
  unfold padZeros
  rw [List.all_append, h, Bool.and_true]
  rw [List.all_eq_true]
  intro c hc
  rw [List.eq_of_mem_replicate hc]
  decide

theorem padZeros_ne_nil (k : ℕ) {l : List Char} (h : l ≠ []) : padZeros k l ≠ [] := by
  unfold padZeros
  intro he
  rcases List.append_eq_nil.mp he with ⟨_, h2⟩
  exact h h2

theorem padZeros_length {k : ℕ} {l : List Char} (h : l.length ≤ k) :
    (padZeros k l).length = k := by
  unfold padZeros
  rw [List.length_append, List.length_replicate]
  omega

theorem lap_to_seconds_two {s : String} {m rest : List Char} {mi : ℤ} {q : ℚ}
    (hstrip : pyStrip s.toList = s.toList)
    (hsplit : pySplit s.toList ':' = [m, rest])
    (hmi : pyIntE m = Except.ok mi) (hf : pyFloatSE rest = Except.ok (PyOut.val q)) :
    lap_to_seconds (PyVal.str s) = PyOut.val (((mi * 60 : ℤ) : ℚ) + q) := by
  unfold lap_to_seconds
  have hna : pdIsna (PyVal.str s) = false := rfl
  rw [hna]
  simp only [Bool.false_eq_true, if_false]
  dsimp only [pyStr]
  rw [hstrip, hsplit]
  show (match (pyIntE m >>= fun mi => pyFloatSE rest >>= fun f =>
      pure (addWhole (mi * 60) f) : Except PyErr PyOut) with
    | .ok r => r
    | .error _ => PyOut.none) = _
  rw [hmi]
  show (match (pyFloatSE rest >>= fun f =>
      pure (addWhole (mi * 60) f) : Except PyErr PyOut) with
    | .ok r => r
    | .error _ => PyOut.none) = _
  rw [hf]
  rfl

/-- **C10**: formatting a non-negative whole number of milliseconds with
`seconds_to_lap_format` and parsing it back with `lap_to_seconds` returns
exactly the formatted number of seconds. -/
theorem lap_to_seconds_roundtrip (ms : ℕ) :
    lap_to_seconds (PyVal.str (seconds_to_lap_format ms)) = PyOut.val ((ms : ℚ) / 1000) := by
  set m := ms / 60000 with hm
  set r := ms % 60000 with hr
  set p2 := padZeros 2 (natDigits (r / 1000)) with hp2
  set p3 := padZeros 3 (natDigits (r % 1000)) with hp3
  have hr60 : r < 60000 := Nat.mod_lt _ (by omega)
  have hX2 : (natDigits (r / 1000)).length ≤ 2 :=
    natDigits_length_le 2 _ (by omega) (by omega)
  have hY3 : (natDigits (r % 1000)).length ≤ 3 :=
    natDigits_length_le 3 _ (by have := Nat.mod_lt r (show 0 < 1000 by omega); omega) (by omega)
  have hp2dig : p2.all Char.isDigit = true := padZeros_all_digit 2 (natDigits_all_digit _)
  have hp3dig : p3.all Char.isDigit = true := padZeros_all_digit 3 (natDigits_all_digit _)
  have hp2ne : p2 ≠ [] := padZeros_ne_nil 2 (natDigits_ne_nil _)
  have hp3len : p3.length = 3 := padZeros_length hY3
  have hmdig : ∀ c ∈ natDigits m, c.isDigit = true :=
    fun c hc => List.all_eq_true.mp (natDigits_all_digit m) c hc
  -- the rendered character list, reassociated around the ':'
  have hlist : (seconds_to_lap_format ms).toList =
      natDigits m ++ ':' :: (p2 ++ '.' :: p3) := by
    show natDigits m ++ ':' :: p2 ++ '.' :: p3 = _
    rw [List.append_assoc]
    rfl
  have hnocolon2 : ':' ∉ p2 ++ '.' :: p3 := by
    intro hc
    rcases List.mem_append.mp hc with h | h
    · exact (isDigit_char_classes _ (List.all_eq_true.mp hp2dig _ h)).2.1 rfl
    · rcases List.mem_cons.mp h with h | h
      · exact absurd h.symm (by decide)
      · exact (isDigit_char_classes _ (List.all_eq_true.mp hp3dig _ h)).2.1 rfl
  have hnocolon1 : ':' ∉ natDigits m := by
    intro hc
    exact (isDigit_char_classes _ (hmdig _ hc)).2.1 rfl
  have hsplit : pySplit (seconds_to_lap_format ms).toList ':' =
      [natDigits m, p2 ++ '.' :: p3] := by
    rw [hlist, pySplit_append_sep hnocolon1, pySplit_no_sep hnocolon2]
  have hstrip : pyStrip (seconds_to_lap_format ms).toList =
      (seconds_to_lap_format ms).toList := by
    apply pyStrip_eq_self
    intro c hc
    rw [hlist] at hc
    rcases List.mem_append.mp hc with h | h
    · exact (isDigit_char_classes _ (hmdig _ h)).1
    · rcases List.mem_cons.mp h with h | h
      · subst h; decide
      · rcases List.mem_append.mp h with h | h
        · exact (isDigit_char_classes _ (List.all_eq_true.mp hp2dig _ h)).1
        · rcases List.mem_cons.mp h with h | h
          · subst h; decide
          · exact (isDigit_char_classes _ (List.all_eq_true.mp hp3dig _ h)).1
  have hint : pyIntE (natDigits m) = Except.ok (m : ℤ) := pyIntE_natDigits m
  have hfloat : pyFloatSE (p2 ++ '.' :: p3) = Except.ok (PyOut.val (mkRat (r : ℤ) 1000)) := by
    rw [pyFloatSE_digits_dot hp2dig hp3dig hp2ne]
    have hv2 : digitsToNat p2 = r / 1000 := by
      rw [hp2, digitsToNat_padZeros, digitsToNat_natDigits]
    have hv3 : digitsToNat p3 = r % 1000 := by
      rw [hp3, digitsToNat_padZeros, digitsToNat_natDigits]
    rw [hp3len, hv2, hv3]
    norm_num
    congr 1
    omega
  rw [lap_to_seconds_two hstrip hsplit hint hfloat]
  have hmk : mkRat (r : ℤ) 1000 = (r : ℚ) / 1000 := by
    rw [Rat.mkRat_eq_div]
    norm_num
  rw [hmk]
  have hms : (ms : ℚ) = 60000 * (m : ℚ) + (r : ℚ) := by
    have h1 : 60000 * (ms / 60000) + ms % 60000 = ms := Nat.div_add_mod ms 60000
    calc (ms : ℚ) = ((60000 * (ms / 60000) + ms % 60000 : ℕ) : ℚ) := by rw [h1]
      _ = 60000 * (m : ℚ) + (r : ℚ) := by push_cast; ring
  rw [hms]
  push_cast
  ring

/-! ### C1, C3, C4: stint segmentation -/

theorem buildStintsAux_shape :
    ∀ (l : List (ℕ × Lap)) (n : ℕ) (skip : Bool) (cur : List (ℕ × Lap)),
      (∀ p ∈ cur, pitFlag p.2 = false) →
      ∀ s ∈ buildStintsAux n skip cur l,
        s.2 ≠ [] ∧ (∃ pre suf, cur ++ l = pre ++ s.2 ++ suf) ∧
        ∀ p ∈ s.2.dropLast, pitFlag p.2 = false := by
  intro l
  induction l with
  | nil =>
    intro n skip cur hcur s hs
    unfold buildStintsAux at hs
    split at hs
    · simp at hs
    · rename_i hne
      rw [List.mem_singleton] at hs
      subst hs
      refine ⟨hne, ⟨[], [], by simp⟩, ?_⟩
      intro p hp
      exact hcur p ((List.dropLast_sublist cur).subset hp)
  | cons x rest ih =>
    intro n skip cur hcur s hs
    rw [buildStintsAux] at hs
    split at hs
    · obtain ⟨hne, ⟨pre, suf, hseg⟩, hfree⟩ := ih (n + 1) false [] (by simp) s hs
      rw [List.nil_append] at hseg
      refine ⟨hne, ⟨cur ++ [x] ++ pre, suf, ?_⟩, hfree⟩
      rw [hseg] at *
      simp
    · split at hs
      · rcases List.mem_cons.mp hs with hfirst | hrest
        · subst hfirst
          refine ⟨by simp, ⟨[], rest, by simp⟩, ?_⟩
          intro p hp
          rw [List.dropLast_concat] at hp
          exact hcur p hp
        · obtain ⟨hne, ⟨pre, suf, hseg⟩, hfree⟩ := ih n true [] (by simp) s hrest
          rw [List.nil_append] at hseg
          refine ⟨hne, ⟨cur ++ [x] ++ pre, suf, ?_⟩, hfree⟩
          rw [hseg] at *
          simp
      · rename_i hskip hpit
        have hpit' : pitFlag x.2 = false := by
          cases hp : pitFlag x.2
          · rfl
          · exact absurd hp hpit
        obtain ⟨hne, ⟨pre, suf, hseg⟩, hfree⟩ := ih n false (cur ++ [x])
          (by
            intro p hp
            rcases List.mem_append.mp hp with h | h
            · exact hcur p h
            · rw [List.mem_singleton] at h
              subst h
              exact hpit') s hs
        refine ⟨hne, ⟨pre, suf, ?_⟩, hfree⟩
        rw [← hseg]
        simp

/-- **C1**: for every car, `show_stint_pace_chart`'s segmentation cuts the
car's lap list (filtered to the car, sorted by lap number, unparseable lap
times already removed by the preprocessing) into nonempty contiguous
segments, all of one car; a pit-flagged lap can only sit at the end of its
stint, never in the interior. -/
theorem stint_segmentation_sound (rows : List Lap) (car : ℕ) (s : ℕ × List (ℕ × Lap))
    (hs : s ∈ buildStints (carGroup rows car)) :
    s.2 ≠ [] ∧
    (∃ pre suf, (carGroup rows car).enum = pre ++ s.2 ++ suf) ∧
    (∀ p ∈ s.2, p.2.number = car) ∧
    (∀ p ∈ s.2.dropLast, pitFlag p.2 = false) ∧
    (∀ p ∈ s.2, pitFlag p.2 = true → s.2.getLast? = some p) ∧
    (carGroup rows car).Sorted carLapRel := by
  obtain ⟨hne, ⟨pre, suf, hseg⟩, hfree⟩ :=
    buildStintsAux_shape ((carGroup rows car).enum) 1 false [] (by simp) s hs
  rw [List.nil_append] at hseg
  have hmem : ∀ p ∈ s.2, p ∈ (carGroup rows car).enum := by
    intro p hp
    rw [hseg]
    exact List.mem_append.mpr (Or.inl (List.mem_append.mpr (Or.inr hp)))
  refine ⟨hne, ⟨pre, suf, hseg⟩, ?_, hfree, ?_, ?_⟩
  · intro p hp
    have h2 : p.2 ∈ carGroup rows car := List.snd_mem_of_mem_enum (hmem p hp)
    have h3 : p.2 ∈ (rows.filter (fun r => decide (r.number = car))) :=
      (List.perm_insertionSort carLapRel _).mem_iff.mp h2
    have h4 := (List.mem_filter.mp h3).2
    exact of_decide_eq_true h4
  · intro p hp hpit
    have hsplit := List.dropLast_append_getLast (l := s.2) hne
    rw [← hsplit] at hp
    rcases List.mem_append.mp hp with h | h
    · exact absurd (hfree p h) (by rw [hpit]; simp)
    · rw [List.mem_singleton] at h
      subst h
      exact List.getLast?_eq_getLast s.2 hne
  · exact List.sorted_insertionSort carLapRel _

theorem stint_segmentation_sound_witness :
    ((1 : ℕ), [((0 : ℕ), (⟨7, 1, 100, PyVal.str "B"⟩ : Lap))]) ∈
      buildStints (carGroup [⟨7, 1, 100, PyVal.str "B"⟩, ⟨7, 2, 100, PyVal.str ""⟩] 7) ∧
    [((0 : ℕ), (⟨7, 1, 100, PyVal.str "B"⟩ : Lap))] ≠ [] :=
  ⟨by decide,
    (stint_segmentation_sound [⟨7, 1, 100, PyVal.str "B"⟩, ⟨7, 2, 100, PyVal.str ""⟩] 7
      (1, [(0, ⟨7, 1, 100, PyVal.str "B"⟩)]) (by decide)).1⟩

theorem buildStintsAux_idx_lb :
    ∀ (l : List Lap) (k n : ℕ) (skip : Bool) (cur : List (ℕ × Lap)),
      ∀ s ∈ buildStintsAux n skip cur (List.enumFrom k l), ∀ p ∈ s.2, p ∈ cur ∨ k ≤ p.1 := by
  intro l
  induction l with
  | nil =>
    intro k n skip cur s hs p hp
    rw [List.enumFrom_nil] at hs
    unfold buildStintsAux at hs
    split at hs
    · simp at hs
    · rw [List.mem_singleton] at hs
      subst hs
      exact Or.inl hp
  | cons x xs ih =>
    intro k n skip cur s hs p hp
    rw [List.enumFrom_cons, buildStintsAux] at hs
    split at hs
    · rcases ih (k + 1) (n + 1) false [] s hs p hp with h | h
      · simp at h
      · right; omega
    · split at hs
      · rcases List.mem_cons.mp hs with h1 | h1
        · subst h1
          rcases List.mem_append.mp hp with h | h
          · exact Or.inl h
          · rw [List.mem_singleton] at h
            subst h
            right; rfl
        · rcases ih (k + 1) n true [] s h1 p hp with h | h
          · simp at h
          · right; omega
      · rcases ih (k + 1) n false (cur ++ [(k, x)]) s hs p hp with h | h
        · rcases List.mem_append.mp h with h2 | h2
          · exact Or.inl h2
          · rw [List.mem_singleton] at h2
            subst h2
            right; rfl
        · right; omega

theorem buildStintsAux_skip_kills :
    ∀ (l : List Lap) (k n : ℕ) (cur : List (ℕ × Lap)),
      (∀ p ∈ cur, p.1 < k) →
      ∀ s ∈ buildStintsAux n true cur (List.enumFrom k l), ∀ p ∈ s.2, p.1 ≠ k := by
  intro l k n cur hcur s hs p hp
  cases l with
  | nil =>
    rw [List.enumFrom_nil] at hs
    unfold buildStintsAux at hs
    split at hs
    · simp at hs
    · rw [List.mem_singleton] at hs
      subst hs
      exact Nat.ne_of_lt (hcur p hp)
  | cons x xs =>
    rw [List.enumFrom_cons, buildStintsAux] at hs
    rw [if_pos rfl] at hs
    rcases buildStintsAux_idx_lb xs (k + 1) (n + 1) false [] s hs p hp with h | h
    · simp at h
    · omega

theorem buildStintsAux_out_lap :
    ∀ (l : List Lap) (k n : ℕ) (skip : Bool) (cur : List (ℕ × Lap)),
      (∀ p ∈ cur, pitFlag p.2 = false) → (∀ p ∈ cur, p.1 < k) →
      ∀ s ∈ buildStintsAux n skip cur (List.enumFrom k l), ∀ p ∈ s.2, pitFlag p.2 = true →
      ∀ s' ∈ buildStintsAux n skip cur (List.enumFrom k l), ∀ p' ∈ s'.2, p'.1 ≠ p.1 + 1 := by
  intro l
  induction l with
  | nil =>
    intro k n skip cur hcurpit _ s hs p hp hpit s' _ p' _
    rw [List.enumFrom_nil] at hs
    unfold buildStintsAux at hs
    split at hs
    · simp at hs
    · rw [List.mem_singleton] at hs
      subst hs
      exact absurd (hcurpit p hp) (by rw [hpit]; simp)
  | cons x xs ih =>
    intro k n skip cur hcurpit hcuridx s hs p hp hpit s' hs' p' hp'
    rw [List.enumFrom_cons, buildStintsAux] at hs hs'
    by_cases hskip : skip = true
    · rw [if_pos hskip] at hs hs'
      exact ih (k + 1) (n + 1) false [] (by simp) (by simp) s hs p hp hpit s' hs' p' hp'
    · rw [if_neg hskip] at hs hs'
      by_cases hpitx : pitFlag x = true
      · rw [if_pos hpitx] at hs hs'
        rcases List.mem_cons.mp hs with h1 | h1
        · have hpk : p.1 = k := by
            subst h1
            rcases List.mem_append.mp hp with h | h
            · exact absurd (hcurpit p h) (by rw [hpit]; simp)
            · rw [List.mem_singleton] at h
              subst h
              rfl
          rw [hpk]
          rcases List.mem_cons.mp hs' with h2 | h2
          · subst h2
            rcases List.mem_append.mp hp' with h | h
            · have := hcuridx p' h
              omega
            · rw [List.mem_singleton] at h
              subst h
              omega
          · exact buildStintsAux_skip_kills xs (k + 1) n [] (by simp) s' h2 p' hp'
        · have hpge : k + 1 ≤ p.1 := by
            rcases buildStintsAux_idx_lb xs (k + 1) n true [] s h1 p hp with h | h
            · simp at h
            · exact h
          rcases List.mem_cons.mp hs' with h2 | h2
          · subst h2
            rcases List.mem_append.mp hp' with h | h
            · have := hcuridx p' h
              omega
            · rw [List.mem_singleton] at h
              subst h
              show k ≠ p.1 + 1
              omega
          · exact ih (k + 1) n true [] (by simp) (by simp) s h1 p hp hpit s' h2 p' hp'
      · rw [if_neg hpitx] at hs hs'
        have hpitx' : pitFlag x = false := by
          cases h : pitFlag x
          · rfl
          · exact absurd h hpitx
        refine ih (k + 1) n false (cur ++ [(k, x)]) ?_ ?_ s hs p hp hpit s' hs' p' hp'
        · intro q hq
          rcases List.mem_append.mp hq with h | h
          · exact hcurpit q h
          · rw [List.mem_singleton] at h
            subst h
            exact hpitx'
        · intro q hq
          rcases List.mem_append.mp hq with h | h
          · have := hcuridx q h
            omega
          · rw [List.mem_singleton] at h
            subst h
            omega

/-- **C3, counterexample to the claim as stated**: with two consecutive
pit-flagged laps, the second "B" lap is itself the skipped out-lap, so the
row after it (index 2) *is* assigned to a stint although it immediately
follows a pit-in lap (index 1). -/
theorem out_lap_counterexample :
    pitFlag (⟨7, 2, 100, PyVal.str "B"⟩ : Lap) = true ∧
    [(⟨7, 1, 100, PyVal.str "B"⟩ : Lap), ⟨7, 2, 100, PyVal.str "B"⟩,
      ⟨7, 3, 100, PyVal.str ""⟩].get? 1 = some ⟨7, 2, 100, PyVal.str "B"⟩ ∧
    (∃ s ∈ buildStints [(⟨7, 1, 100, PyVal.str "B"⟩ : Lap), ⟨7, 2, 100, PyVal.str "B"⟩,
      ⟨7, 3, 100, PyVal.str ""⟩], ∃ p ∈ s.2, p.1 = 2) := by
  decide

/-- **C3 (amended)**: the lap immediately following a pit-in lap *that is
itself assigned to a stint* belongs to no stint, so it contributes to no
stint's lap count or average pace. -/
theorem out_lap_never_counted (l : List Lap) (s : ℕ × List (ℕ × Lap))
    (hs : s ∈ buildStints l) (p : ℕ × Lap) (hp : p ∈ s.2) (hpit : pitFlag p.2 = true) :
    ∀ s' ∈ buildStints l, ∀ p' ∈ s'.2, p'.1 ≠ p.1 + 1 := by
  have heq : l.enum = List.enumFrom 0 l := rfl
  unfold buildStints at hs ⊢
  rw [heq] at hs ⊢
  exact buildStintsAux_out_lap l 0 1 false [] (by simp) (by simp) s hs p hp hpit

theorem out_lap_never_counted_witness :
    ((1 : ℕ), [((0 : ℕ), (⟨7, 1, 100, PyVal.str "B"⟩ : Lap))]) ∈
      buildStints [(⟨7, 1, 100, PyVal.str "B"⟩ : Lap), ⟨7, 2, 100, PyVal.str ""⟩,
        ⟨7, 3, 100, PyVal.str ""⟩] ∧
    (∀ s' ∈ buildStints [(⟨7, 1, 100, PyVal.str "B"⟩ : Lap), ⟨7, 2, 100, PyVal.str ""⟩,
        ⟨7, 3, 100, PyVal.str ""⟩], ∀ p' ∈ s'.2, p'.1 ≠ 0 + 1) :=
  ⟨by decide,
    out_lap_never_counted
      [(⟨7, 1, 100, PyVal.str "B"⟩ : Lap), ⟨7, 2, 100, PyVal.str ""⟩, ⟨7, 3, 100, PyVal.str ""⟩]
      (1, [(0, ⟨7, 1, 100, PyVal.str "B"⟩)]) (by decide)
      (0, ⟨7, 1, 100, PyVal.str "B"⟩) (by decide) (by decide)⟩

theorem ceil_cast_div_hundred (a : ℕ) : ⌈(a : ℚ) / 100⌉₊ = (a + 99) / 100 := by
  have hc : (a : ℚ) / 100 ≤ (⌈(a : ℚ) / 100⌉₊ : ℚ) := Nat.le_ceil _
  have ha : (a : ℚ) ≤ (⌈(a : ℚ) / 100⌉₊ : ℚ) * 100 := by
    rw [div_le_iff (by norm_num : (0 : ℚ) < 100)] at hc
    exact hc
  have ha' : a ≤ ⌈(a : ℚ) / 100⌉₊ * 100 := by exact_mod_cast ha
  have hub : ⌈(a : ℚ) / 100⌉₊ ≤ (a + 99) / 100 := by
    rw [Nat.ceil_le, div_le_iff (by norm_num : (0 : ℚ) < 100)]
    have h : (a : ℕ) ≤ (a + 99) / 100 * 100 := by omega
    exact_mod_cast h
  omega

theorem nKeep_eq_ceil (n p : ℕ) : nKeep n p = max 1 ⌈((n * p : ℕ) : ℚ) / 100⌉₊ := by
  unfold nKeep
  rw [ceil_cast_div_hundred]

/-- **C4**: every stint the segmentation emits has at least one valid
lap-time value, and its reported `AVG_TOP_LAP_SEC` is the arithmetic mean
of the `k` smallest lap times of the stint, where
`k = max(1, ⌈n·p/100⌉)` for a top-percentage `1 ≤ p ≤ 100`. -/
theorem stint_avg_top_percent (rows : List Lap) (car p : ℕ) (st : ℕ × List (ℕ × Lap))
    (h1 : 1 ≤ p) (h2 : p ≤ 100) (hst : st ∈ buildStints (carGroup rows car)) :
    1 ≤ (st.2.map (fun q => q.2.lapTimeSec)).length ∧
    (summarize p car st).avgTopLapSec =
      ((sortedSecs (st.2.map (fun q => q.2.lapTimeSec))).take
        (max 1 ⌈(((st.2.map (fun q => q.2.lapTimeSec)).length * p : ℕ) : ℚ) / 100⌉₊)).sum /
      ((max 1 ⌈(((st.2.map (fun q => q.2.lapTimeSec)).length * p : ℕ) : ℚ) / 100⌉₊ : ℕ) : ℚ) := by
  constructor
  · have hne : st.2 ≠ [] := (stint_segmentation_sound rows car st hst).1
    have hpos : 0 < st.2.length := List.length_pos.mpr hne
    rw [List.length_map]
    omega
  · show avgTopOf p (st.2.map (fun q => q.2.lapTimeSec)) = _
    unfold avgTopOf
    rw [nKeep_eq_ceil]

theorem stint_avg_top_percent_witness :
    (1 : ℕ) ≤ 20 ∧ (20 : ℕ) ≤ 100 ∧
    1 ≤ (([((0 : ℕ), (⟨7, 1, 100, PyVal.str ""⟩ : Lap))]).map
      (fun q => q.2.lapTimeSec)).length :=
  ⟨by decide, by decide,
    (stint_avg_top_percent [⟨7, 1, 100, PyVal.str ""⟩] 7 20
      (1, [(0, ⟨7, 1, 100, PyVal.str ""⟩)]) (by decide) (by decide) (by decide)).1⟩

/-! ### C7: results-table ordering, positions and gaps -/

theorem enumFrom_map_fst_add_one {α : Type} :
    ∀ (l : List α) (k : ℕ),
      (List.enumFrom k l).map (fun p => p.1 + 1) = List.range' (k + 1) l.length := by
  intro l
  induction l with
  | nil => intro k; rfl
  | cons x xs ih =>
    intro k
    rw [List.enumFrom_cons, List.map_cons, ih (k + 1), List.length_cons, List.range'_succ]

theorem enum_map_snd_comp {α β : Type} (l : List α) (f : α → β) :
    l.enum.map (fun p => f p.2) = l.map f := by
  have h1 : l.enum.map (fun p => f p.2) = (l.enum.map Prod.snd).map f := by
    rw [List.map_map]
    rfl
  rw [h1, List.enum_map_snd]

theorem resRel_lap_le {a b : RRow} (h : resRel a b) : b.lapNumber ≤ a.lapNumber := by
  unfold resRel resKey at h
  rw [Prod.Lex.le_iff] at h
  rcases h with h | ⟨h, _⟩
  · exact le_of_lt (OrderDual.toDual_lt_toDual.mp h)
  · exact le_of_eq (congrArg OrderDual.ofDual h).symm

/-- **C7**: `show_results_table` sorts the per-car last-lap rows by laps
completed descending then final elapsed ascending, assigns positions
`1..n` in that order, and reports each car's gap to the leader as a time
difference exactly when the car completed the same number of laps as the
leader, and as the whole number of laps down otherwise. -/
theorem results_table_order_and_gaps (rows : List RRow) :
    (orderedRows rows).Sorted resRel ∧
    ((show_results_table rows).map (fun e => e.1)) = List.range' 1 (orderedRows rows).length ∧
    (∀ lead, (orderedRows rows).head? = some lead →
      (∀ r ∈ orderedRows rows, r.lapNumber ≤ lead.lapNumber) ∧
      (∀ r ∈ orderedRows rows,
        gapToLeader lead.lapNumber lead.elapsedSec r =
          if r.lapNumber = lead.lapNumber then Gap.seconds (r.elapsedSec - lead.elapsedSec)
          else Gap.lapsDown (lead.lapNumber - r.lapNumber)) ∧
      (show_results_table rows).map (fun e => e.2) =
        (orderedRows rows).map (fun r => (r, gapToLeader lead.lapNumber lead.elapsedSec r))) := by
  have hsorted : (orderedRows rows).Sorted resRel :=
    List.sorted_insertionSort resRel (finalRows rows)
  have hleadmax : ∀ lead, (orderedRows rows).head? = some lead →
      ∀ r ∈ orderedRows rows, r.lapNumber ≤ lead.lapNumber := by
    intro lead hhead r hr
    cases ho : orderedRows rows with
    | nil => rw [ho] at hhead; simp at hhead
    | cons a t =>
      rw [ho] at hhead
      rw [List.head?_cons, Option.some.injEq] at hhead
      subst hhead
      rw [ho] at hr
      rcases List.mem_cons.mp hr with h | h
      · subst h; exact le_refl _
      · rw [ho] at hsorted
        exact resRel_lap_le ((List.sorted_cons.mp hsorted).1 r h)
  refine ⟨hsorted, ?_, ?_⟩
  · unfold show_results_table
    cases ho : (orderedRows rows).head? with
    | none =>
      have : orderedRows rows = [] := by
        cases h2 : orderedRows rows
        · rfl
        · rw [h2] at ho; simp at ho
      rw [this]
      rfl
    | some lead =>
      rw [List.map_map]
      have hcomp : ((fun e : ℕ × RRow × Gap => e.1) ∘
          (fun p : ℕ × RRow => (p.1 + 1, p.2,
            gapToLeader lead.lapNumber lead.elapsedSec p.2))) = fun p => p.1 + 1 := rfl
      rw [hcomp]
      exact enumFrom_map_fst_add_one (orderedRows rows) 0
  · intro lead hhead
    refine ⟨hleadmax lead hhead, ?_, ?_⟩
    · intro r hr
      have hle := hleadmax lead hhead r hr
      unfold gapToLeader
      by_cases hlap : r.lapNumber = lead.lapNumber
      · rw [if_pos hlap]
        rw [if_neg (by omega)]
      · rw [if_neg hlap]
        rw [if_pos (by omega)]
    · unfold show_results_table
      rw [hhead, List.map_map]
      have hcomp : ((fun e : ℕ × RRow × Gap => e.2) ∘
          (fun p : ℕ × RRow => (p.1 + 1, p.2,
            gapToLeader lead.lapNumber lead.elapsedSec p.2))) =
          fun p : ℕ × RRow => (p.2, gapToLeader lead.lapNumber lead.elapsedSec p.2) := rfl
      rw [hcomp]
      exact enum_map_snd_comp (orderedRows rows)
        (fun r => (r, gapToLeader lead.lapNumber lead.elapsedSec r))

theorem results_table_order_and_gaps_witness :
    (orderedRows [(⟨3, 8, 900⟩ : RRow), ⟨1, 10, 1000⟩, ⟨2, 10, 1100⟩]).head? =
      some ⟨1, 10, 1000⟩ ∧
    (⟨3, 8, 900⟩ : RRow).lapNumber ≤ (⟨1, 10, 1000⟩ : RRow).lapNumber :=
  ⟨by decide,
    ((results_table_order_and_gaps [(⟨3, 8, 900⟩ : RRow), ⟨1, 10, 1000⟩, ⟨2, 10, 1100⟩]).2.2
      ⟨1, 10, 1000⟩ (by decide)).1 ⟨3, 8, 900⟩ (by decide)⟩

/-! ### C2: leader by lap with FCY carry-forward -/

theorem mem_lapRowsOf {rows : List TRow} {lap : ℕ} {r : TRow} :
    r ∈ lapRowsOf rows lap ↔ r ∈ rows ∧ r.lapNumber = lap := by
  unfold lapRowsOf
  rw [List.mem_filter]
  simp

theorem mem_eligOrAll_sub {rows : List TRow} {lap : ℕ} {r : TRow}
    (h : r ∈ eligOrAll (lapRowsOf rows lap)) : r ∈ lapRowsOf rows lap := by
  unfold eligOrAll at h
  split at h
  · exact h
  · exact List.mem_of_mem_filter h

theorem sorted_eligOrAll {rows : List TRow} (hs : rows.Sorted rowSortRel) (lap : ℕ) :
    (eligOrAll (lapRowsOf rows lap)).Sorted rowSortRel := by
  have h1 : (lapRowsOf rows lap).Sorted rowSortRel := List.Pairwise.filter _ hs
  unfold eligOrAll
  split
  · exact h1
  · exact List.Pairwise.filter _ h1

theorem rowSortRel_iff_hourElapsedLe {a b : TRow} (h : a.lapNumber = b.lapNumber) :
    rowSortRel a b ↔ hourElapsedLe a b := by
  unfold rowSortRel rowKey hourElapsedLe hourElapsedKey
  rw [Prod.Lex.le_iff]
  constructor
  · intro hh
    rcases hh with hh | ⟨_, hh⟩
    · exact absurd hh (by rw [h]; exact lt_irrefl _)
    · exact hh
  · intro hh
    right
    exact ⟨h, hh⟩

theorem head_min {rows : List TRow} (hs : rows.Sorted rowSortRel) {lap : ℕ} {d : TRow}
    (hd : (eligOrAll (lapRowsOf rows lap)).head? = some d) :
    d ∈ eligOrAll (lapRowsOf rows lap) ∧
    ∀ r ∈ eligOrAll (lapRowsOf rows lap), hourElapsedLe d r := by
  have hsort := sorted_eligOrAll hs lap
  cases he : eligOrAll (lapRowsOf rows lap) with
  | nil => rw [he] at hd; simp at hd
  | cons a t =>
    rw [he] at hd
    rw [List.head?_cons, Option.some.injEq] at hd
    subst hd
    rw [he] at hsort
    have hamem : a ∈ eligOrAll (lapRowsOf rows lap) := he ▸ List.mem_cons_self a t
    refine ⟨List.mem_cons_self a t, ?_⟩
    intro r hr
    have hr2 : r ∈ eligOrAll (lapRowsOf rows lap) := he ▸ hr
    have hlap_a : a.lapNumber = lap := (mem_lapRowsOf.mp (mem_eligOrAll_sub hamem)).2
    have hlap_r : r.lapNumber = lap := (mem_lapRowsOf.mp (mem_eligOrAll_sub hr2)).2
    rcases List.mem_cons.mp hr with h | h
    · subst h
      exact le_refl _
    · have hrel := (List.sorted_cons.mp hsort).1 r h
      exact (rowSortRel_iff_hourElapsedLe (by rw [hlap_a, hlap_r])).mp hrel

theorem leadersAux_spec (rows : List TRow) (hs : rows.Sorted rowSortRel) :
    ∀ (laps : List ℕ) (prev : Option ℕ),
      (∀ lap ∈ laps, ∃ r ∈ rows, r.lapNumber = lap) →
      leadersSpec rows prev laps (leadersAux rows prev laps) := by
  intro laps
  induction laps with
  | nil =>
    intro prev _
    show leadersAux rows prev [] = []
    rfl
  | cons lap rest ih =>
    intro prev hmem
    obtain ⟨r0, hr0, hr0lap⟩ := hmem lap (List.mem_cons_self lap rest)
    have hr0mem : r0 ∈ lapRowsOf rows lap := mem_lapRowsOf.mpr ⟨hr0, hr0lap⟩
    have hne : eligOrAll (lapRowsOf rows lap) ≠ [] := by
      unfold eligOrAll
      split
      · intro he
        rw [he] at hr0mem
        exact absurd hr0mem (List.not_mem_nil r0)
      · rename_i hnee
        exact hnee
    obtain ⟨d, hd⟩ : ∃ d, (eligOrAll (lapRowsOf rows lap)).head? = some d := by
      cases he : eligOrAll (lapRowsOf rows lap) with
      | nil => exact absurd he hne
      | cons a t => exact ⟨a, rfl⟩
    rw [leadersAux, hd]
    show leaderStepSpec rows prev lap (leaderChoice rows prev lap d) ∧
      leadersSpec rows (some (leaderChoice rows prev lap d).carId) rest
        (leadersAux rows (some (leaderChoice rows prev lap d).carId) rest)
    refine ⟨?_, ih _ (fun l hl => hmem l (List.mem_cons_of_mem lap hl))⟩
    have hmin := head_min hs hd
    unfold leaderChoice
    by_cases hcode : flagOf (lapRowsOf rows lap) = some "FCY" ∧ prev ≠ Option.none
    · rw [if_pos hcode]
      cases hf : (eligOrAll (lapRowsOf rows lap)).filter
          (fun r => decide (some r.carId = prev)) with
      | nil =>
        show leaderStepSpec rows prev lap d
        refine ⟨hmin.1, ?_, fun _ => hmin.2⟩
        intro hcarry
        exfalso
        obtain ⟨hflag, pid, hprev, r, hrel, hrid⟩ := hcarry
        have hrf : r ∈ (eligOrAll (lapRowsOf rows lap)).filter
            (fun r => decide (some r.carId = prev)) := by
          rw [List.mem_filter]
          refine ⟨hrel, ?_⟩
          rw [hprev, hrid]
          simp
        rw [hf] at hrf
        exact absurd hrf (List.not_mem_nil r)
      | cons r t =>
        show leaderStepSpec rows prev lap r
        have hrf : r ∈ (eligOrAll (lapRowsOf rows lap)).filter
            (fun r => decide (some r.carId = prev)) := by
          rw [hf]
          exact List.mem_cons_self r t
        have hrmem := List.mem_of_mem_filter hrf
        have hrid : some r.carId = prev := of_decide_eq_true (List.mem_filter.mp hrf).2
        refine ⟨hrmem, fun _ => hrid.symm, ?_⟩
        intro hnc
        exfalso
        exact hnc ⟨hcode.1, r.carId, hrid.symm, r, hrmem, rfl⟩
    · rw [if_neg hcode]
      show leaderStepSpec rows prev lap d
      refine ⟨hmin.1, ?_, fun _ => hmin.2⟩
      intro hcarry
      exfalso
      apply hcode
      obtain ⟨hflag, pid, hprev, _⟩ := hcarry
      refine ⟨hflag, ?_⟩
      rw [hprev]
      simp

/-- **C2, counterexample to the claim as stated**: on an FCY lap where
*every* row is marked "B", the code falls back to ranking all of the lap's
rows and still carries the previous leader forward, even though the
previous leader has no row not marked "B" on that lap; the claim as stated
then requires the leader to be a first *eligible* (non-"B") car, and there
is none.  The code's leaders are car 1 on both laps. -/
theorem fcy_all_pit_counterexample :
    (get_overall_leader_by_lap
      [⟨2, 2, PyVal.str "B", some "FCY", some 10, some 10⟩,
       ⟨1, 1, PyVal.str "", Option.none, some 1, some 1⟩,
       ⟨2, 1, PyVal.str "B", some "FCY", some 20, some 20⟩,
       ⟨1, 2, PyVal.str "", Option.none, some 2, some 2⟩]).map (fun r => r.carId) = [1, 1] ∧
    ¬ C2Stated
      [⟨2, 2, PyVal.str "B", some "FCY", some 10, some 10⟩,
       ⟨1, 1, PyVal.str "", Option.none, some 1, some 1⟩,
       ⟨2, 1, PyVal.str "B", some "FCY", some 20, some 20⟩,
       ⟨1, 2, PyVal.str "", Option.none, some 2, some 2⟩] := by
  refine ⟨by decide, ?_⟩
  unfold C2Stated
  decide

/-- **C2 (amended)**: per lap, the emitted leader is one of the rows the
lap ranks (the non-"B" rows, or all rows when every row is "B"); on an FCY
lap with a previous leader that has a ranked row, the leader is carried
forward; on every other lap the leader is minimal in the
`HOUR`-then-`ELAPSED` order among the ranked rows. -/
theorem fcy_carry_forward_leader (df : List TRow) :
    leadersSpec (sortRows df) Option.none (lapsOf (sortRows df))
      (get_overall_leader_by_lap df) := by
  unfold get_overall_leader_by_lap
  apply leadersAux_spec
  · exact List.sorted_insertionSort rowSortRel df
  · intro lap hlap
    unfold lapsOf at hlap
    obtain ⟨r, hr, hrl⟩ := List.mem_map.mp (List.mem_dedup.mp hlap)
    exact ⟨r, hr, hrl⟩
